import Mathlib

/-!
Shallow embedding of `src/graph.py`: a simple-undirected-graph container that
converts between a neighbourhood (adjacency) matrix, an adjacency list and an
incidence matrix, validating after every construction, plus a thin drawer.

Matrices are lists of rows of integers.  Python list indexing semantics
(negative wrap-around, IndexError past the ends) is modelled explicitly where
the code relies on it.
-/

abbrev Mat := List (List Int)

/-- Row `i` of a matrix (total, used only where the code cannot fault). -/
def rowOf (m : Mat) (i : Nat) : List Int := m.getD i []

/-- Entry `m[i][j]` (total, used only where the code cannot fault). -/
def cell (m : Mat) (i j : Nat) : Int := (rowOf m i).getD j 0

/-- Number of columns as numpy sees it: the length of the first row. -/
def numCols (m : Mat) : Nat := (m.headD []).length

/-- Model of `np.transpose` of a rectangular matrix. -/
def transposeMat (m : Mat) : Mat :=
  (List.range (numCols m)).map (fun j => m.map (fun row => row.getD j 0))

/-- Every row has the same length as the matrix has rows (an n by n matrix). -/
def SquareMat (m : Mat) : Prop := ∀ row ∈ m, row.length = m.length

/-- Every row has the length of the first row (rectangular, as numpy needs). -/
def RectMat (m : Mat) : Prop := ∀ row ∈ m, row.length = numCols m

instance (m : Mat) : Decidable (SquareMat m) := by unfold SquareMat; infer_instance

instance (m : Mat) : Decidable (RectMat m) := by unfold RectMat; infer_instance

/-- Check `any([self.matrix[i][i] for i in range(len(self.matrix))])`:
some diagonal entry is truthy (nonzero). -/
def hasLoops (m : Mat) : Bool :=
  (List.range m.length).any (fun i => cell m i i != 0)

/-- Check `any([v>1 for row in self.matrix for v in row])`. -/
def hasMultiEdges (m : Mat) : Bool :=
  m.any (fun row => row.any (fun v => 1 < v))

/-- Check `not np.array_equal(np.transpose(np.array(m)), np.array(m))`. -/
def isAsymmetric (m : Mat) : Bool := !(transposeMat m == m)

/-- The four cause messages `BadGraphInput` is raised with in `graph.py`. -/
inductive GError
  | loops
  | multiEdges
  | incorrect
  | invalidEdge (k : Nat)
deriving DecidableEq

/-- The message string handed to `BadGraphInput`. -/
def GError.cause : GError → String
  | .loops => "can\x27t have loops"
  | .multiEdges => "can\x27t have multiple edges"
  | .incorrect => "incorrect graph"
  | .invalidEdge k => "invalid edge, " ++ toString k ++ " nodes"

/-- Model of `Graph.validate`: the three checks in order; on success the matrix is kept
unchanged, on failure the stored matrix becomes `None` (modelled by the
stateful wrappers below).  Faithful on square matrices: on ragged input the
Python diagonal read can raise IndexError instead, so theorems about
`validate` carry a squareness hypothesis where the input is not built
square by construction. -/
def validate (m : Mat) : Except GError Mat :=
  if hasLoops m then .error .loops
  else if hasMultiEdges m then .error .multiEdges
  else if isAsymmetric m then .error .incorrect
  else .ok m

/-- Model of `Graph.from_neighbourhood_matrix`: store the input as-is, then validate. -/
def from_neighbourhood_matrix (m : Mat) : Except GError Mat := validate m

/-- An error surfacing from `from_adjacency_list`: either a `BadGraphInput`
raised by validation, or a bare `IndexError` from Python list indexing. -/
inductive PyErr
  | bad (e : GError)
  | indexError
deriving DecidableEq

/-- Python list read `l[i]` with negative wrap-around; `none` is IndexError. -/
def pyIndex (len : Nat) (i : Int) : Option Nat :=
  if 0 ≤ i ∧ i < (len : Int) then some i.toNat
  else if -(len : Int) ≤ i ∧ i < 0 then some (len - i.natAbs)
  else none

/-- Statement `m[a][b] += 1` for in-range nonnegative indices `a`, `b`. -/
def incCell (m : Mat) (a b : Nat) : Mat :=
  m.set a ((rowOf m a).set b ((rowOf m a).getD b 0 + 1))

/-- Statement `matrix[node-1][neigh-1] += 1` with Python indexing on an n by n matrix;
`none` is a raised IndexError. -/
def addNeighbour (n : Nat) (m : Mat) (node neigh : Int) : Option Mat :=
  match pyIndex n (node - 1), pyIndex n (neigh - 1) with
  | some a, some b => some (incCell m a b)
  | _, _ => none

/-- Comprehension `[[0]*c for _ in range(r)]`. -/
def zeros (r c : Nat) : Mat := List.replicate r (List.replicate c 0)

/-- One item of the adjacency dict: walk its neighbour list, incrementing
`matrix[node-1][neigh-1]` for each neighbour. -/
def adj_outer_step (n : Nat) (acc : Option Mat) (p : Int × List Int) : Option Mat :=
  p.2.foldl (fun acc2 ng => acc2.bind (fun m => addNeighbour n m p.1 ng)) acc

/-- The matrix-building loop of `from_adjacency_list`: the dict is a list of
key/value pairs in insertion order. -/
def build_adj_matrix (n : Nat) (pairs : List (Int × List Int)) : Option Mat :=
  pairs.foldl (adj_outer_step n) (some (zeros n n))

/-- Model of `Graph.from_adjacency_list`. -/
def from_adjacency_list (pairs : List (Int × List Int)) : Except PyErr Mat :=
  match build_adj_matrix pairs.length pairs with
  | none => .error .indexError
  | some m => (validate m).mapError .bad

/-- Comprehension `[i for i, node in enumerate(edge) if node == 1]`. -/
def onesIdx (edge : List Int) : List Nat :=
  edge.enum.filterMap (fun p => if p.2 == 1 then some p.1 else none)

/-- Processing of one transposed edge row in `from_incidence_matrix`:
`.error k` models `BadGraphInput` reporting `k` endpoint nodes. -/
def build_inc_step (m : Mat) (edge : List Int) : Except Nat Mat :=
  let ns := onesIdx edge
  if ns.length = 2 then
    .ok (incCell (incCell m (ns.getD 0 0) (ns.getD 1 0)) (ns.getD 1 0) (ns.getD 0 0))
  else
    .error ns.length

/-- The edge loop of `from_incidence_matrix` over the transposed rows. -/
def build_inc_matrix (n : Nat) (edges : List (List Int)) : Except Nat Mat :=
  edges.foldl (fun acc e => acc.bind (fun m => build_inc_step m e)) (.ok (zeros n n))

/-- Model of `Graph.from_incidence_matrix`. -/
def from_incidence_matrix (inc : Mat) : Except GError Mat :=
  match build_inc_matrix inc.length (transposeMat inc) with
  | .error k => .error (.invalidEdge k)
  | .ok m => validate m

/-- Model of `Graph.as_neighbourhood_matrix`. -/
def as_neighbourhood_matrix (m : Mat) : Mat := m

/-- Model of `Graph.as_adjacency_list`:
`{i+1: [j+1 for j,v in enumerate(row) if v==1] for i,row in enumerate(m)}`. -/
def as_adjacency_list (m : Mat) : List (Int × List Int) :=
  m.enum.map (fun p =>
    ((p.1 : Int) + 1,
     p.2.enum.filterMap (fun q => if q.2 == 1 then some ((q.1 : Int) + 1) else none)))

/-- Sum of all entries of the matrix. -/
def sumAll (m : Mat) : Int := (m.map (fun row => row.sum)).sum

/-- Count `sum(sum(row) for row in m)//2`, clamped at 0 because `[0]*k` is empty for
negative `k` in Python. -/
def edge_count (m : Mat) : Nat := ((sumAll m).fdiv 2).toNat

/-- The index pairs visited by
`for i in range(len(m)-1): for j in range(i+1, len(m[0]))` in order. -/
def upper_pairs (n cols : Nat) : List (Nat × Nat) :=
  (List.range (n - 1)).flatMap
    (fun i => (List.range' (i + 1) (cols - (i + 1))).map (fun j => (i, j)))

/-- The 1-entries met by the upper-triangle scan, in scan order: one per edge
column of the incidence matrix. -/
def upper_edges (m : Mat) : List (Nat × Nat) :=
  (upper_pairs m.length (numCols m)).filter (fun p => cell m p.1 p.2 == 1)

/-- Statement `m[a][b] = v` for in-range nonnegative indices. -/
def setCell (m : Mat) (a b : Nat) (v : Int) : Mat :=
  m.set a ((rowOf m a).set b v)

/-- Model of `Graph.as_incidence_matrix`: scan the upper triangle, giving each 1-entry
the next unused column, setting both endpoint rows there. -/
def as_incidence_matrix (m : Mat) : Mat :=
  ((upper_pairs m.length (numCols m)).foldl
    (fun st p =>
      if cell m p.1 p.2 == 1 then
        (setCell (setCell st.1 p.1 st.2 1) p.2 st.2 1, st.2 + 1)
      else st)
    (zeros m.length (edge_count m), 0)).1

/-- The node/edge structure `GraphDrawer.parse` builds (networkx graph). -/
structure NxG where
  nodes : List Int
  edges : List (Int × Int)
deriving DecidableEq

/-- Call `g.add_node(v)`. -/
def nx_add_node (g : NxG) (v : Int) : NxG :=
  if v ∈ g.nodes then g else { g with nodes := g.nodes ++ [v] }

/-- Call `g.add_edge(a, b)`: also inserts missing endpoints as nodes. -/
def nx_add_edge (g : NxG) (a b : Int) : NxG :=
  let g1 := nx_add_node (nx_add_node g a) b
  { g1 with edges := g1.edges ++ [(a, b)] }

/-- The loop of `GraphDrawer.parse` over the adjacency-list items. -/
def build_nx (adj : List (Int × List Int)) : NxG :=
  adj.foldl
    (fun g p =>
      if p.2.isEmpty then nx_add_node g p.1
      else p.2.foldl (fun g2 ng => nx_add_edge g2 p.1 ng) g)
    ⟨[], []⟩

/-- Model of `GraphDrawer` state relevant to construction and the draw guard.  The
numeric layout fields (radius, centre, trigonometric positions) feed only the
external plotting collaborator and are not modelled. -/
structure GraphDrawer where
  graph : Option NxG
  title : String

/-- Model of `GraphDrawer.__init__`: no graph configured yet. -/
def drawerInit : GraphDrawer := ⟨none, ""⟩

/-- Model of `GraphDrawer.parse`. -/
def parse (d : GraphDrawer) (g : Mat) : GraphDrawer :=
  { d with graph := some (build_nx (as_adjacency_list g)) }

/-- Model of `GraphDrawer.with_title`. -/
def with_title (d : GraphDrawer) (t : String) : GraphDrawer :=
  { d with title := t }

/-- Model of `GraphDrawer.__draw`: raises `TypeError` with this message when no graph
was configured, before anything is drawn. -/
def draw (d : GraphDrawer) : Except String Unit :=
  match d.graph with
  | none => .error "Graph to draw is None"
  | some _ => .ok ()

/-- Model of `GraphDrawer.to_screen`: draw, then show. -/
def to_screen (d : GraphDrawer) : Except String Unit := draw d

/-- Model of `GraphDrawer.to_file`: draw, then save; `.ok f` means the file `f` was
written, an error means no output was produced. -/
def to_file (d : GraphDrawer) (filename : String) : Except String String :=
  (draw d).map (fun _ => filename)

/-- Stateful view of `from_neighbourhood_matrix` acting on `self.matrix`:
first component is the matrix field afterwards, second the raised error.
Faithful for square inputs; a ragged input instead makes the program fault
with IndexError inside `validate`, keeping the just-assigned matrix. -/
def run_from_neighbourhood_matrix (_old : Option Mat) (input : Mat) :
    Option Mat × Option GError :=
  match validate input with
  | .ok m => (some m, none)
  | .error e => (none, some e)

/-- Stateful view of `from_adjacency_list` acting on `self.matrix`.  An
IndexError escapes before `self.matrix` is assigned, keeping the old value. -/
def run_from_adjacency_list (old : Option Mat) (pairs : List (Int × List Int)) :
    Option Mat × Option PyErr :=
  match build_adj_matrix pairs.length pairs with
  | none => (old, some .indexError)
  | some m =>
    match validate m with
    | .ok m2 => (some m2, none)
    | .error e => (none, some (.bad e))

/-- Stateful view of `from_incidence_matrix` acting on `self.matrix`.  The
malformed-edge `BadGraphInput` is raised before `self.matrix = matrix`, so the
previously stored matrix survives it.  Faithful for rectangular inputs; a
ragged input instead makes the program fault inside `np.array`/`np.transpose`
before validation, keeping the previous matrix. -/
def run_from_incidence_matrix (old : Option Mat) (inc : Mat) :
    Option Mat × Option GError :=
  match build_inc_matrix inc.length (transposeMat inc) with
  | .error k => (old, some (.invalidEdge k))
  | .ok m =>
    match validate m with
    | .ok m2 => (some m2, none)
    | .error e => (none, some e)

instance : DecidableEq (Except GError Mat) := fun a b =>
  match a, b with
  | .ok x, .ok y =>
      if h : x = y then .isTrue (by rw [h])
      else .isFalse (by intro hc; cases hc; exact h rfl)
  | .ok _, .error _ => .isFalse (by intro hc; cases hc)
  | .error _, .ok _ => .isFalse (by intro hc; cases hc)
  | .error x, .error y =>
      if h : x = y then .isTrue (by rw [h])
      else .isFalse (by intro hc; cases hc; exact h rfl)

instance : DecidableEq (Except PyErr Mat) := fun a b =>
  match a, b with
  | .ok x, .ok y =>
      if h : x = y then .isTrue (by rw [h])
      else .isFalse (by intro hc; cases hc; exact h rfl)
  | .ok _, .error _ => .isFalse (by intro hc; cases hc)
  | .error _, .ok _ => .isFalse (by intro hc; cases hc)
  | .error x, .error y =>
      if h : x = y then .isTrue (by rw [h])
      else .isFalse (by intro hc; cases hc; exact h rfl)

instance : DecidableEq (Except Nat Mat) := fun a b =>
  match a, b with
  | .ok x, .ok y =>
      if h : x = y then .isTrue (by rw [h])
      else .isFalse (by intro hc; cases hc; exact h rfl)
  | .ok _, .error _ => .isFalse (by intro hc; cases hc)
  | .error _, .ok _ => .isFalse (by intro hc; cases hc)
  | .error x, .error y =>
      if h : x = y then .isTrue (by rw [h])
      else .isFalse (by intro hc; cases hc; exact h rfl)

/-- Lemma: `validate` only ever fails with one of the three validation causes, never
with the malformed-edge cause. -/
theorem validate_error_shape (m : Mat) (e : GError) (h : validate m = .error e) :
    e = .loops ∨ e = .multiEdges ∨ e = .incorrect := by
  unfold validate at h
  split at h
  · exact Or.inl (by injection h with h2; exact h2.symm)
  · split at h
    · exact Or.inr (Or.inl (by injection h with h2; exact h2.symm))
    · split at h
      · exact Or.inr (Or.inr (by injection h with h2; exact h2.symm))
      · exact absurd h (by intro hc; cases hc)

/-- C6: `from_neighbourhood_matrix` rejects `[[1]]` with the loop cause,
`[[0,2],[2,0]]` with the multiple-edges cause, and `[[0,1],[0,0]]` with the
incorrect-graph cause, whose message strings are exactly the three cause
strings of `graph.py`. -/
theorem c6_rejection_causes :
    from_neighbourhood_matrix [[1]] = .error .loops ∧
    GError.cause .loops = "can\x27t have loops" ∧
    from_neighbourhood_matrix [[0,2],[2,0]] = .error .multiEdges ∧
    GError.cause .multiEdges = "can\x27t have multiple edges" ∧
    from_neighbourhood_matrix [[0,1],[0,0]] = .error .incorrect ∧
    GError.cause .incorrect = "incorrect graph" :=
  ⟨by decide, rfl, by decide, rfl, by decide, rfl⟩

/-- C8: the adjacency list `{1:[2,3], 2:[1], 3:[1]}` produces the
neighbourhood matrix `[[0,1,1],[1,0,0],[1,0,0]]`; its incidence matrix has
exactly 2 columns, node 1's row is 1 in both columns, and the rows of nodes 2
and 3 each hold a single 1. -/
theorem c8_concrete_scenario :
    from_adjacency_list [(1, [2, 3]), (2, [1]), (3, [1])] =
      .ok [[0,1,1],[1,0,0],[1,0,0]] ∧
    as_incidence_matrix [[0,1,1],[1,0,0],[1,0,0]] = [[1,1],[1,0],[0,1]] ∧
    (∀ row ∈ as_incidence_matrix [[0,1,1],[1,0,0],[1,0,0]], row.length = 2) ∧
    cell (as_incidence_matrix [[0,1,1],[1,0,0],[1,0,0]]) 0 0 = 1 ∧
    cell (as_incidence_matrix [[0,1,1],[1,0,0],[1,0,0]]) 0 1 = 1 ∧
    (rowOf (as_incidence_matrix [[0,1,1],[1,0,0],[1,0,0]]) 1).count 1 = 1 ∧
    (rowOf (as_incidence_matrix [[0,1,1],[1,0,0],[1,0,0]]) 2).count 1 = 1 := by
  decide

/-- C9 counterexample: drawing on a fresh drawer does fail before any output,
but the message is the code's literal `Graph to draw is None`, not the
`graph to draw is not set` the claim states. -/
theorem c9_cex_message :
    to_file drawerInit "out.png" = .error "Graph to draw is None" ∧
    "Graph to draw is None" ≠ "graph to draw is not set" :=
  ⟨rfl, by decide⟩

/-- C9 (amended): a fresh `GraphDrawer` has no graph configured, `with_title`
does not configure one, and on any drawer whose graph is unconfigured both
draw operations fail with the `TypeError` message `Graph to draw is None`
before anything is drawn or any file is produced. -/
theorem c9_draw_without_graph (d : GraphDrawer) (t fn : String)
    (h : d.graph = none) :
    drawerInit.graph = none ∧
    (with_title d t).graph = d.graph ∧
    to_screen d = .error "Graph to draw is None" ∧
    to_file d fn = .error "Graph to draw is None" := by
  refine ⟨rfl, rfl, ?_, ?_⟩ <;> simp [to_screen, to_file, draw, h, Except.map]

/-- Witness for `c9_draw_without_graph` at the fresh drawer. -/
theorem c9_draw_without_graph_witness :
    to_screen drawerInit = .error "Graph to draw is None" ∧
    to_file drawerInit "out.png" = .error "Graph to draw is None" :=
  ⟨(c9_draw_without_graph drawerInit "t" "out.png" rfl).2.2.1,
   (c9_draw_without_graph drawerInit "t" "out.png" rfl).2.2.2⟩

/-- C3 counterexample: a Graph holding the valid matrix `[[0,1],[1,0]]` that
then attempts `from_incidence_matrix([[1],[0]])` fails on the malformed edge
column, yet is left still holding its previous matrix, not the empty state. -/
theorem c3_cex_incidence_keeps_old :
    run_from_incidence_matrix (some [[0,1],[1,0]]) [[1],[0]] =
      (some [[0,1],[1,0]], some (.invalidEdge 1)) ∧
    (some [[0,1],[1,0]] : Option Mat) ≠ none := by
  exact ⟨by decide, by decide⟩

/-- C3 (amended): on an n-by-n neighbourhood input, on any adjacency input,
and on a rectangular incidence input, every `BadGraphInput` raised by
`validate` leaves the matrix field `None`; but the malformed-incidence-edge
failure (and an adjacency IndexError) is raised before the matrix field is
assigned, so the previously stored matrix is retained unchanged.  (Ragged
inputs are excluded: there the program faults with IndexError inside
`validate`, or inside numpy before it, keeping the just-assigned or previous
matrix.) -/
theorem c3_failure_state (old : Option Mat) (minput : Mat)
    (pairs : List (Int × List Int)) (inc : Mat)
    (hsq : SquareMat minput) (hrect : RectMat inc) :
    (∀ e, (run_from_neighbourhood_matrix old minput).2 = some e →
      (run_from_neighbourhood_matrix old minput).1 = none) ∧
    (∀ e, (run_from_adjacency_list old pairs).2 = some (.bad e) →
      (run_from_adjacency_list old pairs).1 = none) ∧
    ((run_from_adjacency_list old pairs).2 = some .indexError →
      (run_from_adjacency_list old pairs).1 = old) ∧
    (∀ k, (run_from_incidence_matrix old inc).2 = some (.invalidEdge k) →
      (run_from_incidence_matrix old inc).1 = old) ∧
    (∀ e, (run_from_incidence_matrix old inc).2 = some e →
      (∀ k, e ≠ .invalidEdge k) → (run_from_incidence_matrix old inc).1 = none) := by
  refine ⟨?_, ?_, ?_, ?_, ?_⟩
  · intro e h
    unfold run_from_neighbourhood_matrix at h ⊢
    cases hv : validate minput <;> simp [hv] at h ⊢
  · intro e h
    unfold run_from_adjacency_list at h ⊢
    cases hb : build_adj_matrix pairs.length pairs <;> simp [hb] at h ⊢
    cases hv : validate _ <;> simp [hv] at h ⊢
  · intro h
    unfold run_from_adjacency_list at h ⊢
    cases hb : build_adj_matrix pairs.length pairs <;> simp [hb] at h ⊢
    cases hv : validate _ <;> simp [hv] at h
  · intro k h
    unfold run_from_incidence_matrix at h ⊢
    cases hb : build_inc_matrix inc.length (transposeMat inc) <;> simp [hb] at h ⊢
    cases hv : validate _ <;> simp [hv] at h
    rcases validate_error_shape _ _ hv with h2 | h2 | h2 <;> subst h2 <;> cases h
  · intro e h hne
    unfold run_from_incidence_matrix at h ⊢
    cases hb : build_inc_matrix inc.length (transposeMat inc) <;> simp [hb] at h ⊢
    · exact absurd h.symm (hne _)
    · cases hv : validate _ <;> simp [hv] at h ⊢

/-- Witness for `c3_failure_state`, one concrete input per branch: a loop
matrix, a loop adjacency list, an out-of-range adjacency label, a malformed
incidence column attempted over a valid stored matrix, and a duplicated
incidence column. -/
theorem c3_failure_state_witness :
    (run_from_neighbourhood_matrix (some [[0]]) [[1]]).1 = none ∧
    (run_from_adjacency_list (some [[0]]) [(1, [1])]).1 = none ∧
    (run_from_adjacency_list (some [[0]]) [(1, [3])]).1 = some [[0]] ∧
    (run_from_incidence_matrix (some [[0,1],[1,0]]) [[1],[0]]).1 = some [[0,1],[1,0]] ∧
    (run_from_incidence_matrix (some [[0]]) [[1,1],[1,1]]).1 = none :=
  ⟨(c3_failure_state (some [[0]]) [[1]] [] [] (by decide) (by decide)).1
      .loops (by decide),
   (c3_failure_state (some [[0]]) [] [(1, [1])] [] (by decide) (by decide)).2.1
      .loops (by decide),
   (c3_failure_state (some [[0]]) [] [(1, [3])] [] (by decide) (by decide)).2.2.1
      (by decide),
   (c3_failure_state (some [[0,1],[1,0]]) [] [] [[1],[0]] (by decide)
      (by decide)).2.2.2.1 1 (by decide),
   (c3_failure_state (some [[0]]) [] [] [[1,1],[1,1]] (by decide)
      (by decide)).2.2.2.2 .multiEdges (by decide) (by intro k hc; cases hc)⟩

/-- Passing the loop check means every diagonal entry is zero. -/
theorem hasLoops_eq_false_iff (m : Mat) :
    hasLoops m = false ↔ ∀ i < m.length, cell m i i = 0 := by
  simp [hasLoops, List.any_eq_false, List.mem_range]

/-- Passing the multi-edge check means every entry is at most 1. -/
theorem hasMultiEdges_eq_false_iff (m : Mat) :
    hasMultiEdges m = false ↔ ∀ row ∈ m, ∀ v ∈ row, v ≤ 1 := by
  simp [hasMultiEdges, List.any_eq_false, Int.not_lt]

/-- Passing the symmetry check means the numpy transpose equals the matrix. -/
theorem isAsymmetric_eq_false_iff (m : Mat) :
    isAsymmetric m = false ↔ transposeMat m = m := by
  simp [isAsymmetric]

/-- What validation success enforces: zero diagonal, entries at most 1, and a
matrix equal to its transpose.  (Entries below 0 are NOT excluded.) -/
def NearGood (m : Mat) : Prop :=
  (∀ i < m.length, cell m i i = 0) ∧ (∀ row ∈ m, ∀ v ∈ row, v ≤ 1) ∧
    transposeMat m = m

/-- Lemma: `validate` succeeds exactly on matrices passing all three checks, and
returns the matrix unchanged. -/
theorem validate_ok_iff (m m2 : Mat) :
    validate m = .ok m2 ↔
      m2 = m ∧ hasLoops m = false ∧ hasMultiEdges m = false ∧
        isAsymmetric m = false := by
  unfold validate
  constructor
  · intro h
    split at h
    · cases h
    · split at h
      · cases h
      · split at h
        · cases h
        · injection h with h2
          simp_all
  · rintro ⟨rfl, h1, h2, h3⟩
    simp [h1, h2, h3]

/-- Validation success yields exactly the `NearGood` invariants. -/
theorem validate_ok_NearGood (m m2 : Mat) (h : validate m = .ok m2) :
    m2 = m ∧ NearGood m := by
  rw [validate_ok_iff] at h
  obtain ⟨rfl, h1, h2, h3⟩ := h
  exact ⟨rfl, (hasLoops_eq_false_iff _).mp h1, (hasMultiEdges_eq_false_iff _).mp h2,
    (isAsymmetric_eq_false_iff _).mp h3⟩

/-- C1 counterexample: `from_neighbourhood_matrix` accepts and stores
`[[0,-1],[-1,0]]`, whose off-diagonal entries are `-1`, outside `{0,1}`: the
multi-edge check only bounds entries above. -/
theorem c1_cex_negative_entry :
    from_neighbourhood_matrix [[0,-1],[-1,0]] = .ok [[0,-1],[-1,0]] ∧
    cell [[0,-1],[-1,0]] 0 1 = -1 ∧
    ¬((-1 : Int) = 0 ∨ (-1 : Int) = 1) := by
  decide

/-- C1 (amended): whenever any of the three construction paths returns
successfully, the stored matrix has a zero diagonal, every entry at most 1,
and equals its transpose; entries need not lie in `{0,1}`, since
`from_neighbourhood_matrix` also accepts negative entries. -/
theorem c1_construction_invariants (minput : Mat) (pairs : List (Int × List Int))
    (inc : Mat) (m1 m2 m3 : Mat)
    (hsq : SquareMat minput) (hrect : RectMat inc)
    (h1 : from_neighbourhood_matrix minput = .ok m1)
    (h2 : from_adjacency_list pairs = .ok m2)
    (h3 : from_incidence_matrix inc = .ok m3) :
    NearGood m1 ∧ NearGood m2 ∧ NearGood m3 := by
  refine ⟨?_, ?_, ?_⟩
  · obtain ⟨rfl, hg⟩ := validate_ok_NearGood _ _ h1
    exact hg
  · unfold from_adjacency_list at h2
    cases hb : build_adj_matrix pairs.length pairs with
    | none => rw [hb] at h2; cases h2
    | some m =>
      rw [hb] at h2
      have h2a : Except.mapError PyErr.bad (validate m) = Except.ok m2 := h2
      cases hv : validate m with
      | ok mv =>
        rw [hv] at h2a
        injection h2a with h2a
        subst h2a
        obtain ⟨rfl, hg⟩ := validate_ok_NearGood _ _ hv
        exact hg
      | error e => rw [hv] at h2a; cases h2a
  · unfold from_incidence_matrix at h3
    cases hb : build_inc_matrix inc.length (transposeMat inc) with
    | error k => rw [hb] at h3; cases h3
    | ok m =>
      rw [hb] at h3
      obtain ⟨rfl, hg⟩ := validate_ok_NearGood _ _ h3
      exact hg

/-- Witness for `c1_construction_invariants`: a single node, a single edge
from an adjacency list, and a 3-node path from an incidence matrix. -/
theorem c1_construction_invariants_witness :
    NearGood [[0]] ∧ NearGood [[0,1],[1,0]] ∧ NearGood [[0,1,0],[1,0,1],[0,1,0]] :=
  c1_construction_invariants [[0]] [(1,[2]),(2,[1])] [[1,0],[1,1],[0,1]]
    [[0]] [[0,1],[1,0]] [[0,1,0],[1,0,1],[0,1,0]]
    (by decide) (by decide) (by decide) (by decide) (by decide)

/-- Nonnegative in-range Python index: no wrap-around. -/
theorem pyIndex_pos (len : Nat) (i : Int) (h0 : 0 ≤ i) (h1 : i < (len : Int)) :
    pyIndex len i = some i.toNat := by
  simp [pyIndex, h0, h1]

/-- Negative in-range Python index wraps around from the end. -/
theorem pyIndex_neg (len : Nat) (i : Int) (h0 : -(len : Int) ≤ i) (h1 : i < 0) :
    pyIndex len i = some (len - i.natAbs) := by
  have : ¬(0 ≤ i ∧ i < (len : Int)) := by omega
  simp [pyIndex, this, h0, h1]

/-- A Python index at or past the length raises IndexError. -/
theorem pyIndex_high (len : Nat) (i : Int) (h : (len : Int) ≤ i) :
    pyIndex len i = none := by
  have h1 : ¬(0 ≤ i ∧ i < (len : Int)) := by omega
  have h2 : ¬(-(len : Int) ≤ i ∧ i < 0) := by omega
  simp [pyIndex, h1, h2]

/-- A Python index below `-len` raises IndexError. -/
theorem pyIndex_low (len : Nat) (i : Int) (h : i < -(len : Int)) :
    pyIndex len i = none := by
  have h1 : ¬(0 ≤ i ∧ i < (len : Int)) := by omega
  have h2 : ¬(-(len : Int) ≤ i ∧ i < 0) := by omega
  simp [pyIndex, h1, h2]

/-- A column IndexError makes the whole `+= 1` statement raise. -/
theorem addNeighbour_none_right (n : Nat) (m : Mat) (node neigh : Int)
    (h : pyIndex n (neigh - 1) = none) : addNeighbour n m node neigh = none := by
  unfold addNeighbour
  rw [h]
  cases pyIndex n (node - 1) <;> rfl

/-- Both indices in range: the cell increment goes through. -/
theorem addNeighbour_some (n : Nat) (m : Mat) (node neigh : Int) (a b : Nat)
    (ha : pyIndex n (node - 1) = some a) (hb : pyIndex n (neigh - 1) = some b) :
    addNeighbour n m node neigh = some (incCell m a b) := by
  unfold addNeighbour
  rw [ha, hb]

/-- Adjacency items with empty neighbour lists leave the accumulator alone. -/
theorem foldl_adj_empty (n : Nat) (ps : List (Int × List Int)) (acc : Option Mat)
    (h : ∀ p ∈ ps, p.2 = []) :
    ps.foldl (adj_outer_step n) acc = acc := by
  induction ps generalizing acc with
  | nil => rfl
  | cons p ps ih =>
    rw [List.foldl_cons]
    have hstep : adj_outer_step n acc p = acc := by
      unfold adj_outer_step
      rw [h p (by simp)]
      rfl
    rw [hstep]
    exact ih _ (fun q hq => h q (by simp [hq]))

/-- An n-node adjacency list whose only listed neighbour is `l`, on node 1:
the probe family for out-of-range neighbour labels. -/
def one_pair_list (n : Nat) (l : Int) : List (Int × List Int) :=
  ((1 : Int), [l]) ::
    (List.range (n - 1)).map (fun (i : Nat) => ((i : Int) + 2, ([] : List Int)))

theorem one_pair_list_length (n : Nat) (l : Int) (hn : 1 ≤ n) :
    (one_pair_list n l).length = n := by
  unfold one_pair_list
  rw [List.length_cons, List.length_map, List.length_range]
  omega

/-- The probe family reduces to a single `matrix[0][l-1] += 1` statement. -/
theorem build_adj_one_pair (n : Nat) (l : Int) :
    build_adj_matrix n (one_pair_list n l) = addNeighbour n (zeros n n) 1 l := by
  unfold build_adj_matrix one_pair_list
  rw [List.foldl_cons]
  have h1 : adj_outer_step n (some (zeros n n)) (1, [l]) =
      addNeighbour n (zeros n n) 1 l := by
    simp [adj_outer_step]
  rw [h1]
  apply foldl_adj_empty
  intro p hp
  simp at hp
  obtain ⟨i, hi, hp2⟩ := hp
  subst hp2
  rfl

/-- C10 counterexample: on one node, neighbour label `-1` maps to Python index
`-2`, out of range below, so `from_adjacency_list` raises a bare IndexError;
the negative label is not silently accepted. -/
theorem c10_cex_negative_label_raises :
    build_adj_matrix 1 [(1, [-1])] = none ∧
    from_adjacency_list [(1, [-1])] = .error .indexError := by
  decide

/-- C10 (amended): on the n-node probe family where node 1 lists the single
neighbour label `l`: a label above `n` raises a bare IndexError (never a
`BadGraphInput` bounds error); a label `l` with `1 - n ≤ l ≤ 0` is silently
accepted through Python negative indexing, incrementing the cell at row 0 and
column `n - (1 - l)` (counted from the end); and a label below `1 - n` also
raises IndexError rather than being accepted. -/
theorem c10_label_bounds (n : Nat) (l : Int) (hn : 1 ≤ n) :
    ((n : Int) < l → from_adjacency_list (one_pair_list n l) = .error .indexError) ∧
    (1 - (n : Int) ≤ l → l ≤ 0 →
      build_adj_matrix n (one_pair_list n l) =
        some (incCell (zeros n n) 0 (n - (1 - l).toNat))) ∧
    (l < 1 - (n : Int) → from_adjacency_list (one_pair_list n l) = .error .indexError) := by
  have hz : pyIndex n 0 = some 0 := by
    rw [pyIndex_pos n 0 (by omega) (by omega)]
    rfl
  refine ⟨?_, ?_, ?_⟩
  · intro hl
    have hb : build_adj_matrix n (one_pair_list n l) = none := by
      rw [build_adj_one_pair]
      exact addNeighbour_none_right _ _ _ _ (pyIndex_high n (l - 1) (by omega))
    unfold from_adjacency_list
    rw [one_pair_list_length n l hn, hb]
  · intro hlo hhi
    rw [build_adj_one_pair]
    have hcol : pyIndex n (l - 1) = some (n - (1 - l).toNat) := by
      rw [pyIndex_neg n (l - 1) (by omega) (by omega)]
      congr 1
      omega
    have h1 : (1 : Int) - 1 = 0 := by omega
    refine addNeighbour_some n (zeros n n) 1 l 0 (n - (1 - l).toNat) ?_ hcol
    rw [h1, hz]
  · intro hl
    have hb : build_adj_matrix n (one_pair_list n l) = none := by
      rw [build_adj_one_pair]
      exact addNeighbour_none_right _ _ _ _ (pyIndex_low n (l - 1) (by omega))
    unfold from_adjacency_list
    rw [one_pair_list_length n l hn, hb]

/-- Witness for `c10_label_bounds` on two nodes: label 3 and label -2 raise
IndexError, label 0 wraps to the last column of row 0. -/
theorem c10_label_bounds_witness :
    from_adjacency_list (one_pair_list 2 3) = .error .indexError ∧
    build_adj_matrix 2 (one_pair_list 2 0) =
      some (incCell (zeros 2 2) 0 (2 - ((1 : Int) - 0).toNat)) ∧
    from_adjacency_list (one_pair_list 2 (-2)) = .error .indexError :=
  ⟨(c10_label_bounds 2 3 (by decide)).1 (by decide),
   (c10_label_bounds 2 0 (by decide)).2.1 (by decide) (by decide),
   (c10_label_bounds 2 (-2) (by decide)).2.2 (by decide)⟩

/-- A raised `BadGraphInput` aborts the rest of the edge loop. -/
theorem foldl_inc_error (edges : List (List Int)) (k : Nat) :
    edges.foldl (fun (acc : Except Nat Mat) e => acc.bind (fun m => build_inc_step m e))
      (.error k) = .error k := by
  induction edges with
  | nil => rfl
  | cons e edges ih => exact ih

/-- The edge loop fails with the 1-count of the first malformed edge column. -/
theorem build_inc_first_bad (edges : List (List Int)) (m : Mat) (bad : List Int)
    (hfind : edges.find? (fun e => (onesIdx e).length != 2) = some bad) :
    edges.foldl (fun (acc : Except Nat Mat) e => acc.bind (fun m2 => build_inc_step m2 e))
      (.ok m) = .error (onesIdx bad).length := by
  induction edges generalizing m with
  | nil => cases hfind
  | cons e edges ih =>
    by_cases hp : ((onesIdx e).length != 2) = true
    · rw [@List.find?_cons_of_pos _ (fun e2 => (onesIdx e2).length != 2) e edges hp] at hfind
      injection hfind with hfind
      subst hfind
      have hne : ¬(onesIdx e).length = 2 := by simpa using hp
      rw [List.foldl_cons]
      have hstep : (Except.ok m).bind (fun m2 => build_inc_step m2 e) =
          .error (onesIdx e).length := by
        show build_inc_step m e = _
        unfold build_inc_step
        simp [hne]
      rw [hstep]
      exact foldl_inc_error edges _
    · rw [@List.find?_cons_of_neg _ (fun e2 => (onesIdx e2).length != 2) e edges hp] at hfind
      have heq : (onesIdx e).length = 2 := by simpa using hp
      rw [List.foldl_cons]
      have hstep : (Except.ok m).bind (fun m2 => build_inc_step m2 e) =
          .ok (incCell (incCell m ((onesIdx e).getD 0 0) ((onesIdx e).getD 1 0))
            ((onesIdx e).getD 1 0) ((onesIdx e).getD 0 0)) := by
        show build_inc_step m e = _
        unfold build_inc_step
        simp [heq]
      rw [hstep]
      exact ih _ hfind

/-- C4: an incidence input whose transposed edge rows include one with a
1-count other than 2 fails with `BadGraphInput`, the cause reporting the
actual 1-count of that (first such) column. -/
theorem c4_malformed_edge_reports_count (inc : Mat) (hr : RectMat inc)
    (bad : List Int)
    (hfind : (transposeMat inc).find? (fun e => (onesIdx e).length != 2) = some bad) :
    from_incidence_matrix inc = .error (.invalidEdge (onesIdx bad).length) ∧
    (onesIdx bad).length ≠ 2 := by
  constructor
  · unfold from_incidence_matrix
    rw [show build_inc_matrix inc.length (transposeMat inc) =
        .error (onesIdx bad).length from
      build_inc_first_bad _ (zeros inc.length inc.length) bad hfind]
  · have := List.find?_some hfind
    simpa using this

/-- Witness for `c4_malformed_edge_reports_count`: a single column holding a
single 1 on two nodes fails reporting 1 node. -/
theorem c4_malformed_edge_reports_count_witness :
    from_incidence_matrix [[1],[0]] = .error (.invalidEdge (onesIdx [1,0]).length) ∧
    (onesIdx [1,0]).length ≠ 2 :=
  c4_malformed_edge_reports_count [[1],[0]] (by decide) [1,0] (by decide)

/-- Reading `getD` of a replicate list. -/
theorem getD_replicate {α : Type} (k i : Nat) (v d : α) :
    (List.replicate k v).getD i d = if i < k then v else d := by
  by_cases h : i < k
  · rw [List.getD_eq_getElem _ _ (by simpa using h)]
    simp [List.getElem_replicate, h]
  · rw [List.getD_eq_default _ _ (by simpa using Nat.le_of_not_lt h)]
    simp [h]

theorem getD_set_self (l : List Int) (b : Nat) (v : Int) (h : b < l.length) :
    (l.set b v).getD b 0 = v := by
  rw [List.getD_eq_getElem?_getD, List.getElem?_set_self h]
  rfl

theorem getD_set_ne (l : List Int) (b j : Nat) (v : Int) (h : b ≠ j) :
    (l.set b v).getD j 0 = l.getD j 0 := by
  rw [List.getD_eq_getElem?_getD, List.getElem?_set_ne h, ← List.getD_eq_getElem?_getD]

theorem rowOf_set_ne (m : Mat) (a i : Nat) (r : List Int) (h : a ≠ i) :
    rowOf (m.set a r) i = rowOf m i := by
  unfold rowOf
  rw [List.getD_eq_getElem?_getD, List.getElem?_set_ne h, ← List.getD_eq_getElem?_getD]

theorem rowOf_set_self (m : Mat) (a : Nat) (r : List Int) (h : a < m.length) :
    rowOf (m.set a r) a = r := by
  unfold rowOf
  rw [List.getD_eq_getElem?_getD, List.getElem?_set_self h]
  rfl

/-- An n-row matrix all of whose rows have length c. -/
def Shape (r c : Nat) (m : Mat) : Prop := m.length = r ∧ ∀ row ∈ m, row.length = c

theorem shape_zeros (r c : Nat) : Shape r c (zeros r c) :=
  ⟨List.length_replicate r _, fun row hrow => by
    rw [List.eq_of_mem_replicate hrow]; exact List.length_replicate c 0⟩

theorem cell_zeros (r c i j : Nat) : cell (zeros r c) i j = 0 := by
  unfold cell rowOf zeros
  rw [getD_replicate]
  by_cases h : i < r <;> simp [h, getD_replicate, ite_self]

theorem rowOf_length (r c : Nat) (m : Mat) (h : Shape r c m) (i : Nat) (hi : i < r) :
    (rowOf m i).length = c := by
  have hi2 : i < m.length := h.1 ▸ hi
  unfold rowOf
  rw [List.getD_eq_getElem _ _ hi2]
  exact h.2 _ (List.getElem_mem hi2)

theorem shape_set (r c : Nat) (m : Mat) (h : Shape r c m) (a : Nat) (row : List Int)
    (hrow : row.length = c) : Shape r c (m.set a row) := by
  refine ⟨by rw [List.length_set]; exact h.1, fun q hq => ?_⟩
  rcases List.mem_or_eq_of_mem_set hq with h2 | h2
  · exact h.2 q h2
  · rw [h2]; exact hrow

theorem shape_incCell (r c : Nat) (m : Mat) (h : Shape r c m) (a b : Nat) (ha : a < r) :
    Shape r c (incCell m a b) := by
  unfold incCell
  exact shape_set r c m h a _ (by rw [List.length_set]; exact rowOf_length r c m h a ha)

theorem shape_setCell (r c : Nat) (m : Mat) (h : Shape r c m) (a b : Nat) (v : Int)
    (ha : a < r) : Shape r c (setCell m a b v) := by
  unfold setCell
  exact shape_set r c m h a _ (by rw [List.length_set]; exact rowOf_length r c m h a ha)

/-- How one `+= 1` statement changes the cells of a well-shaped matrix. -/
theorem cell_incCell (r c : Nat) (m : Mat) (h : Shape r c m) (a b : Nat)
    (ha : a < r) (hb : b < c) (i j : Nat) :
    cell (incCell m a b) i j = cell m i j + (if i = a ∧ j = b then 1 else 0) := by
  unfold incCell cell
  by_cases hia : i = a
  · subst hia
    rw [rowOf_set_self m i _ (h.1 ▸ ha)]
    by_cases hjb : j = b
    · subst hjb
      rw [getD_set_self _ _ _ (by rw [rowOf_length r c m h i ha]; exact hb)]
      simp
    · rw [getD_set_ne _ _ _ _ (fun hc => hjb hc.symm)]
      simp [hjb]
  · rw [rowOf_set_ne m a i _ (fun hc => hia hc.symm)]
    simp [hia]

/-- How one `= v` statement changes the cells of a well-shaped matrix. -/
theorem cell_setCell (r c : Nat) (m : Mat) (h : Shape r c m) (a b : Nat) (v : Int)
    (ha : a < r) (hb : b < c) (i j : Nat) :
    cell (setCell m a b v) i j = if i = a ∧ j = b then v else cell m i j := by
  unfold setCell cell
  by_cases hia : i = a
  · subst hia
    rw [rowOf_set_self m i _ (h.1 ▸ ha)]
    by_cases hjb : j = b
    · subst hjb
      rw [getD_set_self _ _ _ (by rw [rowOf_length r c m h i ha]; exact hb)]
      simp
    · rw [getD_set_ne _ _ _ _ (fun hc => hjb hc.symm)]
      simp [hjb]
  · rw [rowOf_set_ne m a i _ (fun hc => hia hc.symm)]
    simp [hia]

/-- On a nonempty well-shaped matrix, numpy's column count is the row width. -/
theorem numCols_of_shape (r c : Nat) (m : Mat) (h : Shape r c m) (hr : 0 < r) :
    numCols m = c := by
  cases m with
  | nil =>
    have h1 := h.1
    simp at h1
    omega
  | cons row rest => exact h.2 row (by simp)

/-- A per-cell property transfers to a per-entry property on a well-shaped
matrix: every entry is some `cell m i j` with `i`, `j` in range. -/
theorem rows_to_cells (r c : Nat) (m : Mat) (h : Shape r c m) (P : Int → Prop)
    (hP : ∀ i < r, ∀ j < c, P (cell m i j)) :
    ∀ row ∈ m, ∀ v ∈ row, P v := by
  intro row hrow v hv
  obtain ⟨i, hi, hrowi⟩ := List.mem_iff_getElem.mp hrow
  obtain ⟨j, hj, hvj⟩ := List.mem_iff_getElem.mp hv
  have hrowOf : rowOf m i = row := by
    unfold rowOf
    rw [List.getD_eq_getElem _ _ hi]
    exact hrowi
  have hcell : cell m i j = v := by
    unfold cell
    rw [hrowOf, List.getD_eq_getElem _ _ hj]
    exact hvj
  have hi2 : i < r := h.1 ▸ hi
  have hj2 : j < c := by
    have := h.2 row hrow
    omega
  rw [← hcell]
  exact hP i hi2 j hj2

/-- Row `i` of the numpy transpose is column `i` of the matrix. -/
theorem rowOf_transpose (m : Mat) (i : Nat) (h : i < numCols m) :
    rowOf (transposeMat m) i = m.map (fun row => row.getD i 0) := by
  unfold rowOf transposeMat
  rw [List.getD_eq_getElem _ _ (by simpa using h)]
  rw [List.getElem_map]
  rw [List.getElem_range]

/-- Cells of the numpy transpose. -/
theorem cell_transpose (m : Mat) (i j : Nat) (hi : i < numCols m) (hj : j < m.length) :
    cell (transposeMat m) i j = cell m j i := by
  unfold cell
  rw [rowOf_transpose m i hi]
  rw [List.getD_eq_getElem _ _ (by simpa using hj)]
  rw [List.getElem_map]
  unfold rowOf
  rw [List.getD_eq_getElem _ _ hj]

/-- A matrix equal to its numpy transpose has symmetric cells. -/
theorem symm_cells_of_transpose_eq (n : Nat) (m : Mat) (h : Shape n n m)
    (heq : transposeMat m = m) (i j : Nat) (hi : i < n) (hj : j < n) :
    cell m i j = cell m j i := by
  have hn : 0 < n := Nat.lt_of_le_of_lt (Nat.zero_le i) hi
  have hc : numCols m = n := numCols_of_shape n n m h hn
  rw [← heq, cell_transpose m i j (by rw [hc]; exact hi) (by rw [h.1]; exact hj), heq]

/-- A well-shaped matrix with symmetric cells equals its numpy transpose. -/
theorem transpose_eq_of_symm_cells (n : Nat) (m : Mat) (h : Shape n n m)
    (hsym : ∀ i j, i < n → j < n → cell m i j = cell m j i) :
    transposeMat m = m := by
  cases Nat.eq_zero_or_pos n with
  | inl h0 =>
    subst h0
    have : m = [] := List.length_eq_zero.mp h.1
    subst this
    rfl
  | inr hn =>
    have hc : numCols m = n := numCols_of_shape n n m h hn
    apply List.ext_getElem
    · simp only [transposeMat, List.length_map, List.length_range]
      rw [hc, h.1]
    · intro i h1 h2
      have hi : i < n := by
        have : (transposeMat m).length = n := by simp [transposeMat, hc]
        omega
      have hrow : (transposeMat m)[i] = rowOf (transposeMat m) i := by
        unfold rowOf
        rw [List.getD_eq_getElem _ _ h1]
      rw [hrow, rowOf_transpose m i (by rw [hc]; exact hi)]
      apply List.ext_getElem
      · rw [List.length_map]
        have := h.2 m[i] (List.getElem_mem h2)
        rw [h.1]
        omega
      · intro j h3 h4
        have hj : j < n := by
          rw [List.length_map, h.1] at h3
          exact h3
        rw [List.getElem_map]
        have h5 : j < m.length := by rw [h.1]; exact hj
        have hcell2 : (m.getD j []).getD i 0 = cell m j i := by
          unfold cell rowOf
          rfl
        rw [show m[j] = m.getD j [] from (List.getD_eq_getElem m [] h5).symm]
        rw [hcell2, hsym j i hj hi]
        unfold cell rowOf
        rw [List.getD_eq_getElem _ _ h2, List.getD_eq_getElem _ _ h4]

/-- The 0-based matrix index a 1-based label resolves to. -/
def colIdx (n : Nat) (l : Int) : Nat := (pyIndex n (l - 1)).getD 0

/-- A label in `1..n` resolves without wrap-around or IndexError. -/
theorem colIdx_spec (n : Nat) (l : Int) (h1 : 1 ≤ l) (h2 : l ≤ (n : Int)) :
    pyIndex n (l - 1) = some (colIdx n l) ∧ colIdx n l < n ∧
      (colIdx n l : Int) = l - 1 := by
  have hp : pyIndex n (l - 1) = some (l - 1).toNat :=
    pyIndex_pos n (l - 1) (by omega) (by omega)
  have hc : colIdx n l = (l - 1).toNat := by unfold colIdx; rw [hp]; rfl
  refine ⟨by rw [hp, hc], by omega, by omega⟩

/-- The pure effect of processing one adjacency item on row `a`. -/
def incRow (n a : Nat) (m : Mat) (ls : List Int) : Mat :=
  ls.foldl (fun mm l => incCell mm a (colIdx n l)) m

/-- With every label in range, the neighbour loop of one adjacency item never
raises, and equals the pure row fold. -/
theorem adj_inner_fold_valid (n : Nat) (node : Int) (ls : List Int) (m : Mat)
    (hnode : 1 ≤ node ∧ node ≤ (n : Int))
    (hls : ∀ l ∈ ls, 1 ≤ l ∧ l ≤ (n : Int)) :
    ls.foldl (fun (acc : Option Mat) ng =>
        acc.bind (fun mm => addNeighbour n mm node ng)) (some m) =
      some (incRow n (colIdx n node) m ls) := by
  induction ls generalizing m with
  | nil => rfl
  | cons l ls ih =>
    rw [List.foldl_cons]
    have hstep : (some m).bind (fun mm => addNeighbour n mm node l) =
        some (incCell m (colIdx n node) (colIdx n l)) := by
      show addNeighbour n m node l = _
      exact addNeighbour_some n m node l _ _
        (colIdx_spec n node hnode.1 hnode.2).1
        (colIdx_spec n l (hls l (by simp)).1 (hls l (by simp)).2).1
    rw [hstep]
    exact ih _ (fun q hq => hls q (by simp [hq]))

theorem shape_incRow (n a : Nat) (m : Mat) (ls : List Int) (h : Shape n n m)
    (ha : a < n) : Shape n n (incRow n a m ls) := by
  induction ls generalizing m with
  | nil => exact h
  | cons l ls ih => exact ih _ (shape_incCell n n m h a _ ha)

/-- Cell values after one adjacency item: row `a` gains the count of labels
resolving to each column, other rows are untouched. -/
theorem cell_incRow (n a : Nat) (m : Mat) (ls : List Int) (h : Shape n n m)
    (ha : a < n) (hls : ∀ l ∈ ls, colIdx n l < n) (i j : Nat) :
    cell (incRow n a m ls) i j =
      cell m i j +
        (if i = a then ((ls.countP (fun l => colIdx n l == j)) : Int) else 0) := by
  induction ls generalizing m with
  | nil => simp [incRow]
  | cons l ls ih =>
    have hcl : colIdx n l < n := hls l (by simp)
    have hstep : incRow n a m (l :: ls) = incRow n a (incCell m a (colIdx n l)) ls := by
      rfl
    rw [hstep, ih _ (shape_incCell n n m h a _ ha) (fun q hq => hls q (by simp [hq]))]
    rw [cell_incCell n n m h a (colIdx n l) ha hcl i j]
    rw [List.countP_cons]
    by_cases hia : i = a
    · subst hia
      by_cases hjc : j = colIdx n l
      · subst hjc
        simp
        omega
      · have : (colIdx n l == j) = false := by
          simp
          omega
        simp [this, hjc]
    · simp [hia]

/-- The pure effect of the whole adjacency dict on the matrix. -/
def adj_pure (n : Nat) (m : Mat) (pairs : List (Int × List Int)) : Mat :=
  pairs.foldl (fun mm p => incRow n (colIdx n p.1) mm p.2) m

/-- Validity of an adjacency dict: every key and label lies in `1..n`. -/
def ValidLabels (n : Nat) (pairs : List (Int × List Int)) : Prop :=
  ∀ p ∈ pairs, (1 ≤ p.1 ∧ p.1 ≤ (n : Int)) ∧ ∀ l ∈ p.2, 1 ≤ l ∧ l ≤ (n : Int)

instance (n : Nat) (pairs : List (Int × List Int)) : Decidable (ValidLabels n pairs) := by
  unfold ValidLabels; infer_instance

/-- With all labels in range, the adjacency build never raises and equals the
pure double fold. -/
theorem build_adj_valid (n : Nat) (pairs : List (Int × List Int)) (m : Mat)
    (hv : ValidLabels n pairs) :
    pairs.foldl (adj_outer_step n) (some m) = some (adj_pure n m pairs) := by
  induction pairs generalizing m with
  | nil => rfl
  | cons p ps ih =>
    rw [List.foldl_cons]
    have hstep : adj_outer_step n (some m) p = some (incRow n (colIdx n p.1) m p.2) := by
      unfold adj_outer_step
      exact adj_inner_fold_valid n p.1 p.2 m (hv p (by simp)).1 (hv p (by simp)).2
    rw [hstep]
    have hch : adj_pure n m (p :: ps) =
        adj_pure n (incRow n (colIdx n p.1) m p.2) ps := rfl
    rw [hch]
    exact ih _ (fun q hq => hv q (by simp [hq]))

theorem shape_adj_pure (n : Nat) (m : Mat) (pairs : List (Int × List Int))
    (h : Shape n n m) (hv : ValidLabels n pairs) :
    Shape n n (adj_pure n m pairs) := by
  induction pairs generalizing m with
  | nil => exact h
  | cons p ps ih =>
    have ha : colIdx n p.1 < n :=
      (colIdx_spec n p.1 (hv p (by simp)).1.1 (hv p (by simp)).1.2).2.1
    exact ih _ (shape_incRow n _ m p.2 h ha) (fun q hq => hv q (by simp [hq]))

/-- Cell values of the built adjacency matrix: each cell accumulates, over the
dict items whose key resolves to its row, the count of neighbour labels
resolving to its column. -/
theorem cell_adj_pure (n : Nat) (m : Mat) (pairs : List (Int × List Int))
    (h : Shape n n m) (hv : ValidLabels n pairs) (i j : Nat) :
    cell (adj_pure n m pairs) i j =
      cell m i j +
        (pairs.map (fun p =>
          if colIdx n p.1 = i then
            ((p.2.countP (fun l => colIdx n l == j)) : Int)
          else 0)).sum := by
  induction pairs generalizing m with
  | nil => simp [adj_pure]
  | cons p ps ih =>
    have ha : colIdx n p.1 < n :=
      (colIdx_spec n p.1 (hv p (by simp)).1.1 (hv p (by simp)).1.2).2.1
    have hls : ∀ l ∈ p.2, colIdx n l < n := fun l hl =>
      (colIdx_spec n l ((hv p (by simp)).2 l hl).1 ((hv p (by simp)).2 l hl).2).2.1
    have hch : adj_pure n m (p :: ps) =
        adj_pure n (incRow n (colIdx n p.1) m p.2) ps := rfl
    rw [hch, ih _ (shape_incRow n _ m p.2 h ha) (fun q hq => hv q (by simp [hq]))]
    rw [cell_incRow n _ m p.2 h ha hls i j]
    rw [List.map_cons, List.sum_cons]
    by_cases hia : i = colIdx n p.1
    · simp [hia]
      ring
    · have : ¬(colIdx n p.1 = i) := fun hc => hia hc.symm
      simp [hia, this]

/-- Summing the per-item contributions when keys are distinct: all items with
a key other than `k` contribute 0, so the sum is bounded by any bound on the
single item keyed `k`. -/
theorem sum_map_le_of_unique_key (pairs : List (Int × List Int)) (k : Int)
    (f : Int × List Int → Int) (c : Int)
    (h0 : ∀ q ∈ pairs, q.1 ≠ k → f q = 0) (hc : ∀ q ∈ pairs, f q ≤ c)
    (hcpos : 0 ≤ c) (hnd : (pairs.map Prod.fst).Nodup) :
    (pairs.map f).sum ≤ c := by
  induction pairs with
  | nil => simpa using hcpos
  | cons p ps ih =>
    rw [List.map_cons, List.sum_cons]
    rw [List.map_cons] at hnd
    have hnd2 := List.Nodup.of_cons hnd
    have hnotmem : p.1 ∉ ps.map Prod.fst := by
      intro hc2
      exact List.rel_of_pairwise_cons hnd hc2 rfl
    by_cases hk : p.1 = k
    · have hrest : (ps.map f).sum = 0 := by
        apply List.sum_eq_zero
        intro x hx
        obtain ⟨q, hq, rfl⟩ := List.mem_map.mp hx
        apply h0 q (by simp [hq])
        intro hqk
        exact hnotmem (List.mem_map.mpr ⟨q, hq, by rw [hqk, hk]⟩)
      rw [hrest]
      have := hc p (by simp)
      omega
    · rw [h0 p (by simp) hk]
      have := ih (fun q hq h2 => h0 q (by simp [hq]) h2) (fun q hq => hc q (by simp [hq])) hnd2
      omega

/-- C7 counterexample: in `{1:[1,2], 2:[]}` node 1 lists neighbour 2, which
does not list it back, yet construction fails with the loop cause (the
self-listed 1 fills the diagonal first), not the asymmetry cause. -/
theorem c7_cex_loop_preempts_asymmetry :
    from_adjacency_list [(1, [1, 2]), (2, [])] = .error (.bad .loops) ∧
    GError.loops ≠ GError.incorrect := by
  exact ⟨by decide, by decide⟩

/-- C7 (amended): for an adjacency input on `n = |keys|` nodes with distinct
keys and all labels in `1..n`, in which some node lists a neighbour that does
not list it back, construction fails with the asymmetry cause — provided
additionally that no node lists itself and no neighbour list repeats a label
(otherwise the loop or multi-edge cause fires first); the input is never
symmetrized. -/
theorem c7_unreciprocated_neighbour (pairs : List (Int × List Int))
    (hv : ValidLabels pairs.length pairs)
    (hnodupk : (pairs.map Prod.fst).Nodup)
    (hnoself : ∀ p ∈ pairs, p.1 ∉ p.2)
    (hnodupl : ∀ p ∈ pairs, p.2.Nodup)
    (hasym : ∃ p ∈ pairs, ∃ l ∈ p.2, ∀ q ∈ pairs, q.1 = l → p.1 ∉ q.2) :
    from_adjacency_list pairs = .error (.bad .incorrect) := by
  set n := pairs.length with hn
  have hb : build_adj_matrix n pairs = some (adj_pure n (zeros n n) pairs) :=
    build_adj_valid n pairs (zeros n n) hv
  set M := adj_pure n (zeros n n) pairs with hM
  have hSM : Shape n n M := shape_adj_pure n (zeros n n) pairs (shape_zeros n n) hv
  have hcell : ∀ i j, cell M i j =
      (pairs.map (fun p =>
        if colIdx n p.1 = i then
          ((p.2.countP (fun l => colIdx n l == j)) : Int)
        else 0)).sum := by
    intro i j
    rw [hM, cell_adj_pure n (zeros n n) pairs (shape_zeros n n) hv i j, cell_zeros]
    ring
  have hdiag : ∀ i, i < n → cell M i i = 0 := by
    intro i hi
    rw [hcell i i]
    apply List.sum_eq_zero
    intro x hx
    obtain ⟨q, hq, rfl⟩ := List.mem_map.mp hx
    by_cases hqi : colIdx n q.1 = i
    · have hz : q.2.countP (fun l => colIdx n l == i) = 0 := by
        rw [List.countP_eq_zero]
        intro l hl hpred
        have hlv := (hv q hq).2 l hl
        have hkv := (hv q hq).1
        have h1 := (colIdx_spec n l hlv.1 hlv.2).2.2
        have h2 := (colIdx_spec n q.1 hkv.1 hkv.2).2.2
        have h3 : colIdx n l = i := by simpa using hpred
        have : l = q.1 := by omega
        exact hnoself q hq (this ▸ hl)
      simp [hqi, hz]
    · simp [hqi]
  have hle : ∀ i, i < n → ∀ j, j < n → cell M i j ≤ 1 := by
    intro i hi j hj
    rw [hcell i j]
    apply sum_map_le_of_unique_key pairs ((i : Int) + 1) _ 1 ?_ ?_ (by omega) hnodupk
    · intro q hq hqk
      have hkv := (hv q hq).1
      have h2 := (colIdx_spec n q.1 hkv.1 hkv.2).2.2
      have : ¬(colIdx n q.1 = i) := by omega
      simp [this]
    · intro q hq
      by_cases hqi : colIdx n q.1 = i
      · have hcount : q.2.countP (fun l => colIdx n l == j) =
            q.2.countP (fun l => l == (j : Int) + 1) := by
          apply List.countP_congr
          intro l hl
          have hlv := (hv q hq).2 l hl
          have h1 := (colIdx_spec n l hlv.1 hlv.2).2.2
          constructor
          · intro hp
            have : colIdx n l = j := by simpa using hp
            simp
            omega
          · intro hp
            have : l = (j : Int) + 1 := by simpa using hp
            simp
            omega
        rw [hcount, ← List.count_eq_countP]
        have := List.nodup_iff_count_le_one.mp (hnodupl q hq) ((j : Int) + 1)
        simp [hqi]
        exact_mod_cast this
      · simp [hqi]
  obtain ⟨p, hp, l, hl, hback⟩ := hasym
  have hkv := (hv p hp).1
  have hlv := (hv p hp).2 l hl
  have hA := colIdx_spec n p.1 hkv.1 hkv.2
  have hB := colIdx_spec n l hlv.1 hlv.2
  set a := colIdx n p.1 with haDef
  set b := colIdx n l with hbDef
  have hge1 : 1 ≤ cell M a b := by
    rw [hcell a b]
    have hnonneg : ∀ x ∈ pairs.map (fun p2 =>
        if colIdx n p2.1 = a then
          ((p2.2.countP (fun l2 => colIdx n l2 == b)) : Int)
        else 0), 0 ≤ x := by
      intro x hx
      obtain ⟨q, hq, rfl⟩ := List.mem_map.mp hx
      by_cases hc2 : colIdx n q.1 = a <;> simp [hc2]
    have hmem : ((p.2.countP (fun l2 => colIdx n l2 == b)) : Int) ∈
        pairs.map (fun p2 =>
          if colIdx n p2.1 = a then
            ((p2.2.countP (fun l2 => colIdx n l2 == b)) : Int)
          else 0) := by
      refine List.mem_map.mpr ⟨p, hp, ?_⟩
      simp
    have hcp : 0 < p.2.countP (fun l2 => colIdx n l2 == b) := by
      rw [List.countP_pos_iff]
      exact ⟨l, hl, by simp⟩
    have := List.single_le_sum hnonneg _ hmem
    omega
  have heq0 : cell M b a = 0 := by
    rw [hcell b a]
    apply List.sum_eq_zero
    intro x hx
    obtain ⟨q, hq, rfl⟩ := List.mem_map.mp hx
    by_cases hqb : colIdx n q.1 = b
    · have hkq := (hv q hq).1
      have h2 := (colIdx_spec n q.1 hkq.1 hkq.2).2.2
      have hql : q.1 = l := by omega
      have hnb : p.1 ∉ q.2 := hback q hq hql
      have hz : q.2.countP (fun l2 => colIdx n l2 == a) = 0 := by
        rw [List.countP_eq_zero]
        intro x hx2 hpred
        have hxv := (hv q hq).2 x hx2
        have h3 := (colIdx_spec n x hxv.1 hxv.2).2.2
        have h4 : colIdx n x = a := by simpa using hpred
        have : x = p.1 := by omega
        exact hnb (this ▸ hx2)
      simp [hqb, hz]
    · simp [hqb]
  have hnotsym : transposeMat M ≠ M := by
    intro heq
    have := symm_cells_of_transpose_eq n M hSM heq a b hA.2.1 hB.2.1
    omega
  have hloops : hasLoops M = false := by
    rw [hasLoops_eq_false_iff]
    intro i hi
    exact hdiag i (hSM.1 ▸ hi)
  have hmulti : hasMultiEdges M = false := by
    rw [hasMultiEdges_eq_false_iff]
    exact rows_to_cells n n M hSM (fun v => v ≤ 1) (fun i hi j hj => hle i hi j hj)
  have hasymm : isAsymmetric M = true := by
    simp [isAsymmetric, hnotsym]
  unfold from_adjacency_list
  rw [← hn, hb]
  show Except.mapError PyErr.bad (validate M) = _
  unfold validate
  rw [hloops, hmulti, hasymm]
  rfl

/-- Witness for `c7_unreciprocated_neighbour`: `{1:[2], 2:[]}`. -/
theorem c7_unreciprocated_neighbour_witness :
    from_adjacency_list [(1, [2]), (2, [])] = .error (.bad .incorrect) :=
  c7_unreciprocated_neighbour [(1, [2]), (2, [])]
    (by decide) (by decide) (by decide) (by decide) (by decide)

/-- A valid stored matrix: square, zero diagonal, binary entries, symmetric
cells — the spec's "valid simple undirected graph". -/
def GoodMat (m : Mat) : Prop :=
  SquareMat m ∧ (∀ i < m.length, cell m i i = 0) ∧
    (∀ row ∈ m, ∀ v ∈ row, v = 0 ∨ v = 1) ∧
    (∀ i < m.length, ∀ j < m.length, cell m i j = cell m j i)

instance (m : Mat) : Decidable (GoodMat m) := by
  unfold GoodMat SquareMat; infer_instance

theorem shape_of_good (m : Mat) (h : GoodMat m) : Shape m.length m.length m :=
  ⟨rfl, h.1⟩

/-- An in-range cell of a well-shaped matrix is one of its entries. -/
theorem cell_entry (r c : Nat) (m : Mat) (h : Shape r c m) (P : Int → Prop)
    (hP : ∀ row ∈ m, ∀ v ∈ row, P v) (i j : Nat) (hi : i < r) (hj : j < c) :
    P (cell m i j) := by
  have hi2 : i < m.length := h.1 ▸ hi
  have hrow : rowOf m i ∈ m := by
    unfold rowOf
    rw [List.getD_eq_getElem _ _ hi2]
    exact List.getElem_mem hi2
  have hj2 : j < (rowOf m i).length := by
    rw [rowOf_length r c m h i hi]
    exact hj
  have hv : (rowOf m i).getD j 0 ∈ rowOf m i := by
    rw [List.getD_eq_getElem _ _ hj2]
    exact List.getElem_mem hj2
  exact hP _ hrow _ hv

theorem mem_upper_pairs (n cols i j : Nat) :
    (i, j) ∈ upper_pairs n cols ↔ i < n - 1 ∧ i + 1 ≤ j ∧ j < cols := by
  unfold upper_pairs
  rw [List.mem_flatMap]
  constructor
  · rintro ⟨a, ha, hmem⟩
    rw [List.mem_map] at hmem
    obtain ⟨b, hb, heq⟩ := hmem
    rw [List.mem_range] at ha
    rw [List.mem_range'] at hb
    obtain ⟨t, ht, rfl⟩ := hb
    cases heq
    omega
  · rintro ⟨h1, h2, h3⟩
    refine ⟨i, List.mem_range.mpr h1, List.mem_map.mpr ⟨j, ?_, rfl⟩⟩
    rw [List.mem_range']
    exact ⟨j - (i + 1), by omega, by omega⟩

theorem nodup_upper_pairs (n cols : Nat) : (upper_pairs n cols).Nodup := by
  unfold upper_pairs
  rw [List.nodup_flatMap]
  constructor
  · intro i hi
    apply List.Nodup.map_on ?_ (List.nodup_range' _ _)
    intro x hx y hy hxy
    injection hxy
  · apply List.Pairwise.imp ?_ (List.nodup_range (n - 1))
    intro a b hab
    intro p hp hq
    rw [List.mem_map] at hp hq
    obtain ⟨x, hx, rfl⟩ := hp
    obtain ⟨y, hy, heq⟩ := hq
    cases heq
    exact hab rfl

theorem nodup_upper_edges (m : Mat) : (upper_edges m).Nodup :=
  List.Nodup.filter _ (nodup_upper_pairs _ _)

theorem mem_upper_edges (n : Nat) (m : Mat) (h : Shape n n m) (hn : 0 < n)
    (i j : Nat) :
    (i, j) ∈ upper_edges m ↔ i < j ∧ j < n ∧ cell m i j = 1 := by
  unfold upper_edges
  rw [List.mem_filter, h.1, numCols_of_shape n n m h hn, mem_upper_pairs]
  constructor
  · rintro ⟨⟨h1, h2, h3⟩, h4⟩
    exact ⟨by omega, h3, by simpa using h4⟩
  · rintro ⟨h1, h2, h3⟩
    exact ⟨⟨by omega, by omega, h2⟩, by simpa using h3⟩

/-- A list's sum as a finite sum of its `getD` values. -/
theorem list_sum_getD (l : List Int) :
    l.sum = ∑ i ∈ Finset.range l.length, l.getD i 0 := by
  induction l with
  | nil => simp
  | cons a l ih =>
    rw [List.sum_cons, ih, List.length_cons, Finset.sum_range_succ']
    simp only [List.getD_cons_succ, List.getD_cons_zero]
    omega

/-- The total of all matrix entries as a double finite sum of cells. -/
theorem sumAll_eq_double (n : Nat) (m : Mat) (h : Shape n n m) :
    sumAll m = ∑ i ∈ Finset.range n, ∑ j ∈ Finset.range n, cell m i j := by
  unfold sumAll
  rw [list_sum_getD, List.length_map, h.1]
  apply Finset.sum_congr rfl
  intro i hi
  rw [Finset.mem_range] at hi
  have hi2 : i < m.length := h.1 ▸ hi
  have hrow : (m.map (fun row => row.sum)).getD i 0 = (rowOf m i).sum := by
    rw [List.getD_eq_getElem _ _ (by rw [List.length_map]; exact hi2),
      List.getElem_map]
    unfold rowOf
    rw [List.getD_eq_getElem _ _ hi2]
  rw [hrow, list_sum_getD, rowOf_length n n m h i hi]
  rfl

/-- By zero diagonal and symmetry, the double sum double-counts the upper
triangle. -/
theorem double_sum_split (n : Nat) (m : Mat)
    (hdiag : ∀ i < n, cell m i i = 0)
    (hsym : ∀ i j, i < n → j < n → cell m i j = cell m j i) :
    ∑ i ∈ Finset.range n, ∑ j ∈ Finset.range n, cell m i j =
      2 * ∑ p ∈ (Finset.range n ×ˢ Finset.range n).filter (fun p => p.1 < p.2),
            cell m p.1 p.2 := by
  rw [← Finset.sum_product']
  rw [← Finset.sum_filter_add_sum_filter_not (Finset.range n ×ˢ Finset.range n)
    (fun p => p.1 < p.2) (fun p => cell m p.1 p.2)]
  rw [← Finset.sum_filter_add_sum_filter_not
    ((Finset.range n ×ˢ Finset.range n).filter (fun p => ¬p.1 < p.2))
    (fun p => p.2 < p.1) (fun p => cell m p.1 p.2)]
  rw [Finset.filter_filter, Finset.filter_filter]
  have hdiagzero :
      ∑ p ∈ (Finset.range n ×ˢ Finset.range n).filter
        (fun p => ¬p.1 < p.2 ∧ ¬p.2 < p.1), cell m p.1 p.2 = 0 := by
    apply Finset.sum_eq_zero
    intro p hp
    rw [Finset.mem_filter, Finset.mem_product, Finset.mem_range, Finset.mem_range] at hp
    have heq : p.1 = p.2 := by omega
    rw [← heq]
    exact hdiag p.1 hp.1.1
  have hlower :
      ∑ p ∈ (Finset.range n ×ˢ Finset.range n).filter
        (fun p => ¬p.1 < p.2 ∧ p.2 < p.1), cell m p.1 p.2 =
      ∑ p ∈ (Finset.range n ×ˢ Finset.range n).filter
        (fun p => p.1 < p.2), cell m p.1 p.2 := by
    apply Finset.sum_nbij' (fun p => (p.2, p.1)) (fun p => (p.2, p.1))
    · intro p hp
      rw [Finset.mem_filter, Finset.mem_product, Finset.mem_range, Finset.mem_range] at hp
      rw [Finset.mem_filter, Finset.mem_product, Finset.mem_range, Finset.mem_range]
      exact ⟨⟨hp.1.2, hp.1.1⟩, hp.2.2⟩
    · intro p hp
      rw [Finset.mem_filter, Finset.mem_product, Finset.mem_range, Finset.mem_range] at hp
      rw [Finset.mem_filter, Finset.mem_product, Finset.mem_range, Finset.mem_range]
      exact ⟨⟨hp.1.2, hp.1.1⟩, by omega⟩
    · intro p hp
      rfl
    · intro p hp
      rfl
    · intro p hp
      rw [Finset.mem_filter, Finset.mem_product, Finset.mem_range, Finset.mem_range] at hp
      exact hsym p.1 p.2 hp.1.1 hp.1.2
  rw [hdiagzero, hlower]
  ring

/-- On a binary matrix, the upper-triangle sum counts the scan's 1-entries. -/
theorem upper_sum_eq_count (n : Nat) (m : Mat) (h : Shape n n m)
    (hbin : ∀ row ∈ m, ∀ v ∈ row, v = 0 ∨ v = 1) :
    ∑ p ∈ (Finset.range n ×ˢ Finset.range n).filter (fun p => p.1 < p.2),
        cell m p.1 p.2 = ((upper_edges m).length : Int) := by
  cases Nat.eq_zero_or_pos n with
  | inl h0 =>
    subst h0
    have hm : m = [] := List.length_eq_zero.mp h.1
    subst hm
    simp [upper_edges, upper_pairs]
  | inr hn =>
    have hstep1 :
        ∑ p ∈ (Finset.range n ×ˢ Finset.range n).filter (fun p => p.1 < p.2),
            cell m p.1 p.2 =
        ∑ p ∈ (Finset.range n ×ˢ Finset.range n).filter (fun p => p.1 < p.2),
            (if cell m p.1 p.2 = 1 then (1 : Int) else 0) := by
      apply Finset.sum_congr rfl
      intro p hp
      rw [Finset.mem_filter, Finset.mem_product, Finset.mem_range, Finset.mem_range] at hp
      have := cell_entry n n m h (fun v => v = 0 ∨ v = 1) hbin p.1 p.2 hp.1.1 hp.1.2
      rcases this with h2 | h2 <;> simp [h2]
    rw [hstep1, Finset.sum_boole, Finset.filter_filter]
    have hsets : ((upper_edges m).toFinset : Finset (Nat × Nat)) =
        (Finset.range n ×ˢ Finset.range n).filter
          (fun p => p.1 < p.2 ∧ cell m p.1 p.2 = 1) := by
      apply Finset.ext
      intro p
      rw [List.mem_toFinset, Finset.mem_filter, Finset.mem_product,
        Finset.mem_range, Finset.mem_range]
      obtain ⟨i, j⟩ := p
      rw [mem_upper_edges n m h hn i j]
      constructor
      · rintro ⟨h1, h2, h3⟩
        exact ⟨⟨by omega, h2⟩, h1, h3⟩
      · rintro ⟨⟨h1, h2⟩, h3, h4⟩
        exact ⟨h3, h2, h4⟩
    rw [← hsets, List.toFinset_card_of_nodup (nodup_upper_edges m)]

/-- The code's edge count equals the number of upper-triangle 1-entries. -/
theorem edge_count_eq (m : Mat) (hg : GoodMat m) :
    edge_count m = (upper_edges m).length := by
  have h := shape_of_good m hg
  have h1 : sumAll m = 2 * ((upper_edges m).length : Int) := by
    rw [sumAll_eq_double m.length m h,
      double_sum_split m.length m hg.2.1 (fun i j hi hj => hg.2.2.2 i hi j hj),
      upper_sum_eq_count m.length m h hg.2.2.1]
  unfold edge_count
  rw [h1, Int.mul_fdiv_cancel_left _ (by omega)]
  exact Int.toNat_natCast _

/-- One edge-column assignment in `as_incidence_matrix`: set rows `p.1` and
`p.2` of the current column to 1, then advance the column counter. -/
def inc_step (st : Mat × Nat) (p : Nat × Nat) : Mat × Nat :=
  (setCell (setCell st.1 p.1 st.2 1) p.2 st.2 1, st.2 + 1)

theorem as_incidence_matrix_eq (m : Mat) :
    as_incidence_matrix m =
      ((upper_pairs m.length (numCols m)).foldl
        (fun st p => if cell m p.1 p.2 == 1 then inc_step st p else st)
        (zeros m.length (edge_count m), 0)).1 := rfl

/-- Skipped scan positions drop out: the conditional fold over all scanned
pairs is the unconditional fold over the 1-entries. -/
theorem fold_filter_inc (m : Mat) (L : List (Nat × Nat)) (st : Mat × Nat) :
    L.foldl (fun st2 p => if cell m p.1 p.2 == 1 then inc_step st2 p else st2) st =
      (L.filter (fun p => cell m p.1 p.2 == 1)).foldl inc_step st := by
  induction L generalizing st with
  | nil => rfl
  | cons p L ih =>
    rw [List.foldl_cons, List.filter_cons]
    by_cases hp : (cell m p.1 p.2 == 1) = true
    · rw [if_pos hp, if_pos hp, List.foldl_cons]
      exact ih _
    · rw [if_neg hp, if_neg hp]
      exact ih st

theorem shape_inc_fold (nr e : Nat) (E : List (Nat × Nat)) :
    ∀ (st : Mat × Nat), Shape nr e st.1 → (∀ p ∈ E, p.1 < nr ∧ p.2 < nr) →
      Shape nr e (E.foldl inc_step st).1 := by
  induction E with
  | nil => intro st h _; exact h
  | cons p E ih =>
    intro st h hE
    rw [List.foldl_cons]
    apply ih
    · exact shape_setCell nr e _
        (shape_setCell nr e st.1 h p.1 st.2 1 (hE p (by simp)).1)
        p.2 st.2 1 (hE p (by simp)).2
    · intro q hq
      exact hE q (by simp [hq])

/-- Cells after assigning edge columns `k, k+1, ...` for the edges of `E`:
column `k + t` holds 1 exactly at the two endpoint rows of the t-th edge;
other columns keep their previous content. -/
theorem cell_inc_fold (nr e : Nat) (E : List (Nat × Nat)) :
    ∀ (mat : Mat) (k : Nat), Shape nr e mat →
      (∀ p ∈ E, p.1 < nr ∧ p.2 < nr) → k + E.length ≤ e →
      ∀ r c, cell ((E.foldl inc_step (mat, k)).1) r c =
        if k ≤ c ∧ c < k + E.length ∧
            (r = (E.getD (c - k) (0, 0)).1 ∨ r = (E.getD (c - k) (0, 0)).2)
        then 1 else cell mat r c := by
  induction E with
  | nil =>
    intro mat k h hE hke r c
    simp only [List.foldl_nil, List.length_nil, Nat.add_zero]
    rw [if_neg (show ¬(k ≤ c ∧ c < k ∧
        (r = (([] : List (Nat × Nat)).getD (c - k) (0, 0)).1 ∨
         r = (([] : List (Nat × Nat)).getD (c - k) (0, 0)).2)) from
      fun hcon => by omega)]
  | cons p E ih =>
    intro mat k h hE hke r c
    rw [List.length_cons] at hke
    have hp1 : p.1 < nr := (hE p (by simp)).1
    have hp2 : p.2 < nr := (hE p (by simp)).2
    have hk : k < e := by omega
    have hsh1 : Shape nr e (setCell mat p.1 k 1) :=
      shape_setCell nr e mat h p.1 k 1 hp1
    have hsh2 : Shape nr e (setCell (setCell mat p.1 k 1) p.2 k 1) :=
      shape_setCell nr e _ hsh1 p.2 k 1 hp2
    have hstep : List.foldl inc_step (mat, k) (p :: E) =
        List.foldl inc_step (setCell (setCell mat p.1 k 1) p.2 k 1, k + 1) E := rfl
    rw [hstep,
      ih _ (k + 1) hsh2 (fun q hq => hE q (by simp [hq])) (by omega) r c]
    have hcell2 := cell_setCell nr e _ hsh1 p.2 k 1 hp2 hk r c
    have hcell1 := cell_setCell nr e mat h p.1 k 1 hp1 hk r c
    by_cases hc1 : c = k
    · subst hc1
      rw [if_neg (show ¬(c + 1 ≤ c ∧ c < c + 1 + E.length ∧
          (r = (E.getD (c - (c + 1)) (0, 0)).1 ∨
           r = (E.getD (c - (c + 1)) (0, 0)).2)) from fun hcon => by omega)]
      rw [hcell2, hcell1, Nat.sub_self, List.getD_cons_zero]
      by_cases hr2 : r = p.2
      · rw [if_pos (show r = p.2 ∧ c = c from ⟨hr2, rfl⟩),
          if_pos (show c ≤ c ∧ c < c + (p :: E).length ∧ (r = p.1 ∨ r = p.2) from
            ⟨Nat.le_refl c, by simp only [List.length_cons]; omega, Or.inr hr2⟩)]
      · rw [if_neg (show ¬(r = p.2 ∧ c = c) from fun hcon => hr2 hcon.1)]
        by_cases hr1 : r = p.1
        · rw [if_pos (show r = p.1 ∧ c = c from ⟨hr1, rfl⟩),
            if_pos (show c ≤ c ∧ c < c + (p :: E).length ∧ (r = p.1 ∨ r = p.2) from
              ⟨Nat.le_refl c, by simp only [List.length_cons]; omega, Or.inl hr1⟩)]
        · rw [if_neg (show ¬(r = p.1 ∧ c = c) from fun hcon => hr1 hcon.1),
            if_neg (show ¬(c ≤ c ∧ c < c + (p :: E).length ∧ (r = p.1 ∨ r = p.2)) from
              fun hcon => hcon.2.2.elim hr1 hr2)]
    · rw [hcell2, hcell1,
        if_neg (show ¬(r = p.2 ∧ c = k) from fun hcon => hc1 hcon.2),
        if_neg (show ¬(r = p.1 ∧ c = k) from fun hcon => hc1 hcon.2)]
      by_cases hc2 : k + 1 ≤ c
      · have h2 : c - k = (c - (k + 1)) + 1 := by omega
        rw [show ((p :: E).getD (c - k) (0, 0)) = E.getD (c - (k + 1)) (0, 0) from
          by rw [h2]; rfl]
        simp only [List.length_cons]
        apply if_congr ?_ rfl rfl
        constructor
        · rintro ⟨ha1, ha2, ha3⟩
          exact ⟨by omega, by omega, ha3⟩
        · rintro ⟨ha1, ha2, ha3⟩
          exact ⟨by omega, by omega, ha3⟩
      · rw [if_neg (show ¬(k + 1 ≤ c ∧ c < k + 1 + E.length ∧
            (r = (E.getD (c - (k + 1)) (0, 0)).1 ∨
             r = (E.getD (c - (k + 1)) (0, 0)).2)) from fun hcon => hc2 hcon.1),
          if_neg (show ¬(k ≤ c ∧ c < k + (p :: E).length ∧
            (r = ((p :: E).getD (c - k) (0, 0)).1 ∨
             r = ((p :: E).getD (c - k) (0, 0)).2)) from
            fun hcon => hc2 (Nat.lt_of_le_of_ne hcon.1 (fun h3 => hc1 h3.symm)))]

/-- Edges found by the scan: strictly upper-triangle positions holding 1. -/
theorem upper_edges_mem_facts (n : Nat) (m : Mat) (h : Shape n n m) :
    ∀ p ∈ upper_edges m, p.1 < p.2 ∧ p.2 < n ∧ cell m p.1 p.2 = 1 := by
  intro p hp
  obtain ⟨i, j⟩ := p
  obtain ⟨hmem, hpred⟩ := List.mem_filter.mp hp
  rw [mem_upper_pairs] at hmem
  obtain ⟨h1, h2, h3⟩ := hmem
  have hn : 0 < n := by
    have := h.1
    omega
  rw [numCols_of_shape n n m h hn] at h3
  have h4 : cell m i j = 1 := by simpa using hpred
  rw [h.1] at h1
  exact ⟨by omega, h3, h4⟩

/-- C5: on a valid matrix, `as_incidence_matrix` returns an `n × e` matrix
with `e = (sum of entries)/2 =` the number of upper-triangle 1-entries met by
the row-major scan, and column `c` holds 1 exactly at the two endpoint rows
of the c-th scanned edge. -/
theorem c5_incidence_layout (m : Mat) (hg : GoodMat m) :
    (as_incidence_matrix m).length = m.length ∧
    (∀ row ∈ as_incidence_matrix m, row.length = edge_count m) ∧
    edge_count m = (upper_edges m).length ∧
    (∀ p ∈ upper_edges m, p.1 < p.2 ∧ p.2 < m.length ∧ cell m p.1 p.2 = 1) ∧
    (∀ c, c < edge_count m → ∀ r, r < m.length →
      cell (as_incidence_matrix m) r c =
        if r = ((upper_edges m).getD c (0, 0)).1 ∨
            r = ((upper_edges m).getD c (0, 0)).2
        then 1 else 0) := by
  have hsh := shape_of_good m hg
  have hec := edge_count_eq m hg
  have hmemE := upper_edges_mem_facts m.length m hsh
  have hEnd : ∀ p ∈ upper_edges m, p.1 < m.length ∧ p.2 < m.length := by
    intro p hp
    obtain ⟨h1, h2, h3⟩ := hmemE p hp
    exact ⟨by omega, h2⟩
  have hfold : as_incidence_matrix m =
      ((upper_edges m).foldl inc_step (zeros m.length (edge_count m), 0)).1 := by
    rw [as_incidence_matrix_eq, fold_filter_inc]
    rfl
  have hshape : Shape m.length (edge_count m) (as_incidence_matrix m) := by
    rw [hfold]
    exact shape_inc_fold m.length (edge_count m) (upper_edges m) _
      (shape_zeros _ _) hEnd
  refine ⟨hshape.1, hshape.2, hec, hmemE, ?_⟩
  intro c hc r hr
  rw [hfold, cell_inc_fold m.length (edge_count m) (upper_edges m) (zeros _ _) 0
    (shape_zeros _ _) hEnd (by omega) r c]
  rw [cell_zeros]
  apply if_congr ?_ rfl rfl
  constructor
  · rintro ⟨h1, h2, h3⟩
    rwa [Nat.sub_zero] at h3
  · intro h3
    exact ⟨Nat.zero_le c, by omega, by rwa [Nat.sub_zero]⟩

/-- Witness for `c5_incidence_layout` at the single edge `[[0,1],[1,0]]`. -/
theorem c5_incidence_layout_witness :
    (as_incidence_matrix [[0,1],[1,0]]).length = ([[0,1],[1,0]] : Mat).length ∧
    (∀ row ∈ as_incidence_matrix [[0,1],[1,0]],
      row.length = edge_count [[0,1],[1,0]]) ∧
    edge_count [[0,1],[1,0]] = (upper_edges [[0,1],[1,0]]).length ∧
    (∀ p ∈ upper_edges [[0,1],[1,0]],
      p.1 < p.2 ∧ p.2 < ([[0,1],[1,0]] : Mat).length ∧
        cell [[0,1],[1,0]] p.1 p.2 = 1) ∧
    (∀ c, c < edge_count [[0,1],[1,0]] → ∀ r, r < ([[0,1],[1,0]] : Mat).length →
      cell (as_incidence_matrix [[0,1],[1,0]]) r c =
        if r = ((upper_edges [[0,1],[1,0]]).getD c (0, 0)).1 ∨
            r = ((upper_edges [[0,1],[1,0]]).getD c (0, 0)).2
        then 1 else 0) :=
  c5_incidence_layout [[0,1],[1,0]] (by decide)

/-- Validation passes on every valid matrix, returning it unchanged. -/
theorem validate_good (m : Mat) (hg : GoodMat m) : validate m = .ok m := by
  rw [validate_ok_iff]
  refine ⟨rfl, (hasLoops_eq_false_iff m).mpr hg.2.1, ?_, ?_⟩
  · apply (hasMultiEdges_eq_false_iff m).mpr
    intro row hrow v hv
    rcases hg.2.2.1 row hrow v hv with h | h <;> omega
  · apply (isAsymmetric_eq_false_iff m).mpr
    exact transpose_eq_of_symm_cells m.length m (shape_of_good m hg)
      (fun i j hi hj => hg.2.2.2 i hi j hj)

/-- Two equally shaped matrices with equal in-range cells are equal. -/
theorem mat_ext_cells (n : Nat) (m1 m2 : Mat) (h1 : Shape n n m1)
    (h2 : Shape n n m2) (h : ∀ i < n, ∀ j < n, cell m1 i j = cell m2 i j) :
    m1 = m2 := by
  apply List.ext_getElem
  · rw [h1.1, h2.1]
  · intro i ha hb
    apply List.ext_getElem
    · have e1 := h1.2 _ (List.getElem_mem ha)
      have e2 := h2.2 _ (List.getElem_mem hb)
      omega
    · intro j hc hd
      have hi : i < n := by rw [h1.1] at ha; exact ha
      have hj : j < n := by
        have := h1.2 _ (List.getElem_mem ha)
        omega
      have e1 : m1[i][j] = cell m1 i j := by
        unfold cell rowOf
        rw [List.getD_eq_getElem _ _ ha, List.getD_eq_getElem _ _ hc]
      have e2 : m2[i][j] = cell m2 i j := by
        unfold cell rowOf
        rw [List.getD_eq_getElem _ _ hb, List.getD_eq_getElem _ _ hd]
      rw [e1, e2]
      exact h i hi j hj

/-- Summing a map over `range n` that is zero away from `i`. -/
theorem sum_map_range_single (n i : Nat) (v : Nat → Int) :
    ((List.range n).map (fun t => if t = i then v t else 0)).sum =
      if i < n then v i else 0 := by
  induction n with
  | zero => simp
  | succ n ih =>
    rw [List.range_succ, List.map_append, List.sum_append, ih]
    by_cases hin : n = i
    · subst hin
      have h1 : ¬n < n := by omega
      simp [h1]
    · by_cases hin2 : i < n
      · have h2 : i < n + 1 := by omega
        simp [hin, hin2, h2]
      · have h2 : ¬i < n + 1 := by omega
        simp [hin, hin2, h2]

/-- The index-collecting comprehension over `enumerate`, as a filter of the
index range. -/
theorem filterMap_enumFrom_if {β : Type} (f : Nat → β) (l : List Int) (k : Nat) :
    (l.enumFrom k).filterMap
        (fun p => if p.2 == 1 then some (f p.1) else none) =
      ((List.range' k l.length).filter (fun t => l.getD (t - k) 0 == 1)).map f := by
  induction l generalizing k with
  | nil => rfl
  | cons a l ih =>
    rw [List.enumFrom_cons, List.filterMap_cons, List.length_cons,
      List.range'_succ, List.filter_cons]
    have hhead : ((a :: l).getD (k - k) 0 == 1) = (a == 1) := by
      rw [Nat.sub_self, List.getD_cons_zero]
    have htail : (List.range' (k + 1) l.length).filter
          (fun t => (a :: l).getD (t - k) 0 == 1) =
        (List.range' (k + 1) l.length).filter
          (fun t => l.getD (t - (k + 1)) 0 == 1) := by
      apply List.filter_congr
      intro t ht
      rw [List.mem_range'] at ht
      obtain ⟨u, hu, rfl⟩ := ht
      have h2 : k + 1 + 1 * u - k = (k + 1 + 1 * u - (k + 1)) + 1 := by omega
      rw [h2, List.getD_cons_succ]
    rw [hhead, htail]
    by_cases ha : (a == 1) = true
    · rw [if_pos ha, if_pos ha]
      show f k :: _ = _
      rw [List.map_cons, ih (k + 1)]
    · rw [if_neg ha, if_neg ha]
      exact ih (k + 1)

/-- The neighbour labels of one row, as the spec describes them. -/
def rowLabels (row : List Int) : List Int :=
  row.enum.filterMap (fun q => if q.2 == 1 then some ((q.1 : Int) + 1) else none)

theorem rowLabels_eq (row : List Int) :
    rowLabels row =
      ((List.range row.length).filter (fun t => row.getD t 0 == 1)).map
        (fun (t : Nat) => (t : Int) + 1) := by
  unfold rowLabels
  have h := filterMap_enumFrom_if (fun (t : Nat) => (t : Int) + 1) row 0
  have hpred : (fun t => row.getD (t - 0) 0 == 1) = (fun t => row.getD t 0 == 1) := by
    funext t
    rw [Nat.sub_zero]
  rw [hpred] at h
  rw [List.range_eq_range']
  exact h

theorem onesIdx_eq (edge : List Int) :
    onesIdx edge = (List.range edge.length).filter (fun t => edge.getD t 0 == 1) := by
  unfold onesIdx
  have h := filterMap_enumFrom_if (fun (t : Nat) => t) edge 0
  have hpred : (fun t => edge.getD (t - 0) 0 == 1) = (fun t => edge.getD t 0 == 1) := by
    funext t
    rw [Nat.sub_zero]
  rw [hpred] at h
  rw [List.range_eq_range',
    show edge.enum = List.enumFrom 0 edge from rfl, h]
  exact List.map_id _

/-- Unfolding `as_adjacency_list` row by row. -/
theorem as_adjacency_list_eq (m : Mat) :
    as_adjacency_list m =
      (List.range m.length).map
        (fun (i : Nat) => ((i : Int) + 1, rowLabels (rowOf m i))) := by
  apply List.ext_getElem
  · simp [as_adjacency_list]
  · intro t h1 h2
    have ht : t < m.length := by
      simp [as_adjacency_list] at h1
      exact h1
    simp only [as_adjacency_list, List.getElem_map, List.getElem_enum,
      List.getElem_range]
    have hrow : rowOf m t = m[t] := by
      unfold rowOf
      rw [List.getD_eq_getElem _ _ ht]
    rw [hrow]
    rfl

theorem mem_rowLabels (row : List Int) (x : Int) :
    x ∈ rowLabels row ↔
      ∃ j, ∃ h : j < row.length, row[j] = 1 ∧ x = (j : Int) + 1 := by
  unfold rowLabels
  rw [List.mem_filterMap]
  constructor
  · rintro ⟨q, hq, hx⟩
    obtain ⟨i, v⟩ := q
    have h2 := List.mem_enum hq
    by_cases hv : (v == 1) = true
    · rw [if_pos hv] at hx
      injection hx with hx
      refine ⟨i, h2.1, ?_, hx.symm⟩
      have h3 : v = 1 := by simpa using hv
      rw [← h2.2]
      exact h3
    · rw [if_neg hv] at hx
      cases hx
  · rintro ⟨j, hj, h1, rfl⟩
    refine ⟨(j, row[j]), ?_, ?_⟩
    · rw [List.mem_iff_getElem]
      refine ⟨j, by rw [List.enum_length]; exact hj, ?_⟩
      rw [List.getElem_enum]
    · rw [if_pos (by simpa using h1)]

theorem filter_range_eq_single (n a : Nat) (ha : a < n) (p : Nat → Bool)
    (hp : ∀ t, t < n → (p t = true ↔ t = a)) :
    (List.range n).filter p = [a] := by
  induction n with
  | zero => omega
  | succ n ih =>
    rw [List.range_succ, List.filter_append]
    by_cases han : a = n
    · subst han
      have h1 : (List.range a).filter p = [] := by
        rw [List.filter_eq_nil_iff]
        intro t ht hpt
        rw [List.mem_range] at ht
        have := (hp t (by omega)).mp hpt
        omega
      have h2 : p a = true := (hp a (by omega)).mpr rfl
      rw [h1]
      simp [h2]
    · have ha2 : a < n := by omega
      rw [ih ha2 (fun t ht => hp t (by omega))]
      have h2 : p n = false := by
        by_cases hpn : p n = true
        · have := (hp n (by omega)).mp hpn
          omega
        · simpa using hpn
      simp [h2]

theorem filter_range_eq_pair (n a b : Nat) (hab : a < b) (hb : b < n)
    (p : Nat → Bool) (hp : ∀ t, t < n → (p t = true ↔ t = a ∨ t = b)) :
    (List.range n).filter p = [a, b] := by
  induction n with
  | zero => omega
  | succ n ih =>
    rw [List.range_succ, List.filter_append]
    by_cases hbn : b = n
    · subst hbn
      have h1 : (List.range b).filter p = [a] := by
        apply filter_range_eq_single b a hab
        intro t ht
        rw [hp t (by omega)]
        constructor
        · rintro (h | h)
          · exact h
          · omega
        · intro h
          exact Or.inl h
      have h2 : p b = true := (hp b (by omega)).mpr (Or.inr rfl)
      rw [h1]
      simp [h2]
    · have hb2 : b < n := by omega
      rw [ih hb2 (fun t ht => hp t (by omega))]
      have h2 : p n = false := by
        by_cases hpn : p n = true
        · rcases (hp n (by omega)).mp hpn with h | h <;> omega
        · simpa using hpn
      simp [h2]

/-- Reindexing a map over positions by the list itself. -/
theorem range_map_getD {α β : Type} (l : List α) (d : α) (g : α → β) :
    (List.range l.length).map (fun c => g (l.getD c d)) = l.map g := by
  apply List.ext_getElem
  · simp
  · intro t h1 h2
    rw [List.getElem_map, List.getElem_map, List.getElem_range]
    have ht : t < l.length := by simpa using h2
    rw [List.getD_eq_getElem _ _ ht]

/-- The indicator column of an edge `(a, b)` has exactly the 1-positions
`[a, b]`, in order. -/
theorem onesIdx_indicator (n a b : Nat) (hab : a < b) (hb : b < n) :
    onesIdx ((List.range n).map
      (fun r => if r = a ∨ r = b then (1 : Int) else 0)) = [a, b] := by
  rw [onesIdx_eq]
  have hlen : ((List.range n).map
      (fun r => if r = a ∨ r = b then (1 : Int) else 0)).length = n := by
    simp
  rw [hlen]
  apply filter_range_eq_pair n a b hab hb
  intro t ht
  have hget : ((List.range n).map
      (fun r => if r = a ∨ r = b then (1 : Int) else 0)).getD t 0 =
      if t = a ∨ t = b then (1 : Int) else 0 := by
    rw [List.getD_eq_getElem _ _ (by simpa using ht), List.getElem_map,
      List.getElem_range]
  rw [hget]
  by_cases hc : t = a ∨ t = b <;> simp [hc]

/-- Counting neighbour labels of one row that resolve to column `j`: exactly
one when the row holds a 1 at `j`, otherwise none. -/
theorem countP_rowLabels (n : Nat) (row : List Int) (hlen : row.length = n)
    (j : Nat) (hj : j < n) :
    (rowLabels row).countP (fun l => colIdx n l == j) =
      if row.getD j 0 = 1 then 1 else 0 := by
  rw [rowLabels_eq, List.countP_map, hlen]
  have hcong : ((List.range n).filter (fun t => row.getD t 0 == 1)).countP
        ((fun l => colIdx n l == j) ∘ (fun (t : Nat) => (t : Int) + 1)) =
      ((List.range n).filter (fun t => row.getD t 0 == 1)).countP
        (fun t => t == j) := by
    apply List.countP_congr
    intro t ht
    have ht2 : t < n := by
      have := (List.mem_filter.mp ht).1
      simpa using this
    have hc := (colIdx_spec n ((t : Int) + 1) (by omega) (by omega)).2.2
    have hc2 : colIdx n ((t : Int) + 1) = t := by omega
    show (colIdx n ((t : Int) + 1) == j) = true ↔ (t == j) = true
    rw [hc2]
  rw [hcong, ← List.count_eq_countP]
  by_cases hval : row.getD j 0 = 1
  · rw [if_pos hval]
    apply List.count_eq_one_of_mem
    · exact List.Nodup.filter _ (List.nodup_range n)
    · rw [List.mem_filter]
      exact ⟨List.mem_range.mpr hj, by simpa using hval⟩
  · rw [if_neg hval]
    apply List.count_eq_zero_of_not_mem
    intro hmem
    rw [List.mem_filter] at hmem
    exact hval (by simpa using hmem.2)

/-- The adjacency-list round trip: reading the adjacency list back rebuilds
exactly the same neighbourhood matrix, which then validates. -/
theorem adjacency_round_trip (m : Mat) (hg : GoodMat m) :
    from_adjacency_list (as_adjacency_list m) = .ok m := by
  have hsh := shape_of_good m hg
  have hlen : (as_adjacency_list m).length = m.length := by
    rw [as_adjacency_list_eq]
    simp
  have hv : ValidLabels m.length (as_adjacency_list m) := by
    rw [as_adjacency_list_eq]
    intro p hp
    rw [List.mem_map] at hp
    obtain ⟨t, ht, rfl⟩ := hp
    rw [List.mem_range] at ht
    refine ⟨⟨by omega, by omega⟩, ?_⟩
    intro l hl
    rw [mem_rowLabels] at hl
    obtain ⟨j, hj, h1, rfl⟩ := hl
    have hrl : (rowOf m t).length = m.length :=
      rowOf_length m.length m.length m hsh t ht
    constructor
    · omega
    · omega
  have hb : build_adj_matrix m.length (as_adjacency_list m) =
      some (adj_pure m.length (zeros m.length m.length) (as_adjacency_list m)) :=
    build_adj_valid m.length _ (zeros m.length m.length) hv
  have hcell : ∀ i < m.length, ∀ j < m.length,
      cell (adj_pure m.length (zeros m.length m.length) (as_adjacency_list m)) i j =
        cell m i j := by
    intro i hi j hj
    rw [cell_adj_pure m.length (zeros m.length m.length) _
      (shape_zeros m.length m.length) hv i j, cell_zeros]
    rw [as_adjacency_list_eq, List.map_map]
    have hfun : ∀ t ∈ List.range m.length,
        ((fun p => if colIdx m.length p.1 = i then
            ((p.2.countP (fun l => colIdx m.length l == j)) : Int) else 0) ∘
          (fun (t : Nat) => ((t : Int) + 1, rowLabels (rowOf m t)))) t =
        (fun t => if t = i then
            (((rowLabels (rowOf m t)).countP
              (fun l => colIdx m.length l == j)) : Int) else 0) t := by
      intro t ht
      rw [List.mem_range] at ht
      have hc := (colIdx_spec m.length ((t : Int) + 1) (by omega) (by omega)).2.2
      have hc2 : colIdx m.length ((t : Int) + 1) = t := by omega
      show (if colIdx m.length ((t : Int) + 1) = i then _ else 0) = _
      rw [hc2]
    rw [List.map_congr_left hfun, sum_map_range_single m.length i
      (fun t => (((rowLabels (rowOf m t)).countP
        (fun l => colIdx m.length l == j)) : Int)), if_pos hi]
    rw [countP_rowLabels m.length (rowOf m i)
      (rowOf_length m.length m.length m hsh i hi) j hj]
    have hbin := cell_entry m.length m.length m hsh (fun v => v = 0 ∨ v = 1)
      hg.2.2.1 i j hi hj
    have hdef : (rowOf m i).getD j 0 = cell m i j := rfl
    rw [zero_add, hdef]
    rcases hbin with h | h <;> rw [h] <;> decide
  have hsh2 : Shape m.length m.length
      (adj_pure m.length (zeros m.length m.length) (as_adjacency_list m)) :=
    shape_adj_pure m.length (zeros m.length m.length) _
      (shape_zeros m.length m.length) hv
  have heq : adj_pure m.length (zeros m.length m.length) (as_adjacency_list m) = m :=
    mat_ext_cells m.length _ m hsh2 hsh hcell
  unfold from_adjacency_list
  rw [hlen, hb, heq]
  show Except.mapError PyErr.bad (validate m) = Except.ok m
  rw [validate_good m hg]
  rfl

/-- On a duplicate-free list, the decidable-equality count of an element is
its membership indicator. -/
theorem countP_decide_nodup (E : List (Nat × Nat)) (hnd : E.Nodup) (x : Nat × Nat) :
    E.countP (fun q => decide (q = x)) = if x ∈ E then 1 else 0 := by
  induction E with
  | nil => simp
  | cons a E ih =>
    have hnd2 := List.Nodup.of_cons hnd
    rw [List.countP_cons, ih hnd2]
    by_cases hax : a = x
    · subst hax
      have hnotmem : a ∉ E := (List.nodup_cons.mp hnd).1
      simp [hnotmem]
    · rw [if_neg (show ¬(decide (a = x) = true) from by simp [hax]), Nat.add_zero]
      by_cases hx : x ∈ E
      · rw [if_pos hx, if_pos (List.mem_cons.mpr (Or.inr hx))]
      · rw [if_neg hx, if_neg (show x ∉ a :: E from by
          rw [List.mem_cons]
          rintro (h | h)
          · exact hax h.symm
          · exact hx h)]

theorem shape_inc2_fold (n : Nat) (E' : List (Nat × Nat)) :
    ∀ mat, Shape n n mat → (∀ p ∈ E', p.1 < n ∧ p.2 < n) →
      Shape n n (E'.foldl (fun mm p => incCell (incCell mm p.1 p.2) p.2 p.1) mat) := by
  induction E' with
  | nil => intro mat h _; exact h
  | cons p E ih =>
    intro mat h hE
    rw [List.foldl_cons]
    exact ih _
      (shape_incCell n n _ (shape_incCell n n mat h p.1 p.2 (hE p (by simp)).1)
        p.2 p.1 (hE p (by simp)).2)
      (fun q hq => hE q (by simp [hq]))

/-- Cells after re-adding all edges symmetrically: each cell gains the number
of occurrences of its position among the edges, in either orientation. -/
theorem cell_inc2_fold (n : Nat) (E' : List (Nat × Nat)) :
    ∀ mat, Shape n n mat → (∀ p ∈ E', p.1 < n ∧ p.2 < n) →
      ∀ i j,
        cell (E'.foldl (fun mm p => incCell (incCell mm p.1 p.2) p.2 p.1) mat) i j =
          cell mat i j + ((E'.countP (fun q => decide (q = (i, j)))) : Int) +
            ((E'.countP (fun q => decide (q = (j, i)))) : Int) := by
  induction E' with
  | nil =>
    intro mat h hE i j
    simp
  | cons p E ih =>
    intro mat h hE i j
    rw [List.foldl_cons]
    have hp1 := (hE p (by simp)).1
    have hp2 := (hE p (by simp)).2
    have hsh1 : Shape n n (incCell mat p.1 p.2) :=
      shape_incCell n n mat h p.1 p.2 hp1
    have hsh2 : Shape n n (incCell (incCell mat p.1 p.2) p.2 p.1) :=
      shape_incCell n n _ hsh1 p.2 p.1 hp2
    rw [ih _ hsh2 (fun q hq => hE q (by simp [hq])) i j]
    rw [cell_incCell n n _ hsh1 p.2 p.1 hp2 hp1 i j]
    rw [cell_incCell n n mat h p.1 p.2 hp1 hp2 i j]
    obtain ⟨pa, pb⟩ := p
    simp only [List.countP_cons, decide_eq_true_eq, Prod.mk.injEq]
    split_ifs <;> push_cast <;> omega

/-- Reconstructing from indicator edge columns: the edge loop never fails and
re-adds every edge symmetrically. -/
theorem build_inc_cols (n : Nat) (E' : List (Nat × Nat)) :
    ∀ mat, (∀ p ∈ E', p.1 < p.2 ∧ p.2 < n) →
      (E'.map (fun p => (List.range n).map
          (fun r => if r = p.1 ∨ r = p.2 then (1 : Int) else 0))).foldl
          (fun (acc : Except Nat Mat) e => acc.bind (fun mm => build_inc_step mm e))
          (.ok mat) =
        .ok (E'.foldl (fun mm p => incCell (incCell mm p.1 p.2) p.2 p.1) mat) := by
  induction E' with
  | nil => intro mat _; rfl
  | cons p E ih =>
    intro mat hE
    rw [List.map_cons, List.foldl_cons, List.foldl_cons]
    have hone := onesIdx_indicator n p.1 p.2 (hE p (by simp)).1 (hE p (by simp)).2
    have hstep : (Except.ok mat).bind (fun mm => build_inc_step mm
        ((List.range n).map (fun r => if r = p.1 ∨ r = p.2 then (1 : Int) else 0))) =
        .ok (incCell (incCell mat p.1 p.2) p.2 p.1) := by
      show build_inc_step mat _ = _
      unfold build_inc_step
      rw [hone]
      simp
    rw [hstep]
    exact ih _ (fun q hq => hE q (by simp [hq]))

/-- The incidence round trip: reading the produced incidence matrix back
reconstructs exactly the original neighbourhood matrix, which validates. -/
theorem incidence_round_trip (m : Mat) (hg : GoodMat m) :
    from_incidence_matrix (as_incidence_matrix m) = .ok m := by
  rcases Nat.eq_zero_or_pos m.length with h0 | hn
  · have hm : m = [] := List.length_eq_zero.mp h0
    subst hm
    rfl
  · have hsh := shape_of_good m hg
    have hec := edge_count_eq m hg
    have hmemE := upper_edges_mem_facts m.length m hsh
    have hEnd : ∀ p ∈ upper_edges m, p.1 < m.length ∧ p.2 < m.length := by
      intro p hp
      obtain ⟨h1, h2, h3⟩ := hmemE p hp
      exact ⟨by omega, h2⟩
    have hfold : as_incidence_matrix m =
        ((upper_edges m).foldl inc_step (zeros m.length (edge_count m), 0)).1 := by
      rw [as_incidence_matrix_eq, fold_filter_inc]
      rfl
    have hshape : Shape m.length (edge_count m) (as_incidence_matrix m) := by
      rw [hfold]
      exact shape_inc_fold m.length (edge_count m) (upper_edges m) _
        (shape_zeros _ _) hEnd
    have hcellinc : ∀ c, c < edge_count m → ∀ r, r < m.length →
        cell (as_incidence_matrix m) r c =
          if r = ((upper_edges m).getD c (0, 0)).1 ∨
              r = ((upper_edges m).getD c (0, 0)).2
          then 1 else 0 := by
      intro c hc r hr
      rw [hfold, cell_inc_fold m.length (edge_count m) (upper_edges m) (zeros _ _) 0
        (shape_zeros _ _) hEnd (by omega) r c]
      rw [cell_zeros]
      apply if_congr ?_ rfl rfl
      constructor
      · rintro ⟨h1, h2, h3⟩
        rwa [Nat.sub_zero] at h3
      · intro h3
        exact ⟨Nat.zero_le c, by omega, by rwa [Nat.sub_zero]⟩
    have hcols : numCols (as_incidence_matrix m) = edge_count m :=
      numCols_of_shape _ _ _ hshape hn
    have hT : transposeMat (as_incidence_matrix m) =
        (upper_edges m).map (fun p => (List.range m.length).map
          (fun r => if r = p.1 ∨ r = p.2 then (1 : Int) else 0)) := by
      unfold transposeMat
      rw [hcols, hec]
      rw [← range_map_getD (upper_edges m) (0, 0)
        (fun p => (List.range m.length).map
          (fun r => if r = p.1 ∨ r = p.2 then (1 : Int) else 0))]
      apply List.map_congr_left
      intro c hc
      rw [List.mem_range] at hc
      apply List.ext_getElem
      · rw [List.length_map, List.length_map, List.length_range, hshape.1]
      · intro r h1 h2
        have hr : r < m.length := by
          rw [List.length_map, hshape.1] at h1
          exact h1
        have hrA : r < (as_incidence_matrix m).length := by
          rw [hshape.1]
          exact hr
        have hLHS : (List.map (fun row => row.getD c 0) (as_incidence_matrix m))[r] =
            cell (as_incidence_matrix m) r c := by
          rw [List.getElem_map]
          unfold cell rowOf
          rw [List.getD_eq_getElem _ _ hrA]
        rw [hLHS, List.getElem_map, List.getElem_range,
          hcellinc c (by rw [hec]; exact hc) r hr]
    have hbuild : build_inc_matrix (as_incidence_matrix m).length
        (transposeMat (as_incidence_matrix m)) =
        .ok ((upper_edges m).foldl
          (fun mm p => incCell (incCell mm p.1 p.2) p.2 p.1)
          (zeros m.length m.length)) := by
      rw [hshape.1, hT]
      unfold build_inc_matrix
      exact build_inc_cols m.length (upper_edges m) (zeros m.length m.length)
        (fun p hp => ⟨(hmemE p hp).1, (hmemE p hp).2.1⟩)
    have hrebuilt : (upper_edges m).foldl
        (fun mm p => incCell (incCell mm p.1 p.2) p.2 p.1)
        (zeros m.length m.length) = m := by
      apply mat_ext_cells m.length _ m
        (shape_inc2_fold m.length (upper_edges m) _ (shape_zeros _ _) hEnd) hsh
      intro i hi j hj
      rw [cell_inc2_fold m.length (upper_edges m) _ (shape_zeros _ _) hEnd i j,
        cell_zeros, zero_add]
      have hnodupE := nodup_upper_edges m
      have hcount : ∀ a b : Nat,
          (((upper_edges m).countP (fun q => decide (q = (a, b)))) : Int) =
            if (a, b) ∈ upper_edges m then 1 else 0 := by
        intro a b
        rw [countP_decide_nodup (upper_edges m) hnodupE (a, b)]
        by_cases hmem : (a, b) ∈ upper_edges m <;> simp [hmem]
      rw [hcount i j, hcount j i]
      have hmem1 := mem_upper_edges m.length m hsh hn i j
      have hmem2 := mem_upper_edges m.length m hsh hn j i
      have hsymm := hg.2.2.2 i hi j hj
      rcases Nat.lt_trichotomy i j with hlt | heq | hgt
      · have hn2 : (j, i) ∉ upper_edges m := fun hc => by
          have := (hmem2.mp hc).1
          omega
        rw [if_neg hn2]
        by_cases h1 : cell m i j = 1
        · rw [if_pos (hmem1.mpr ⟨hlt, hj, h1⟩), h1]
          norm_num
        · have hbin := cell_entry m.length m.length m hsh (fun v => v = 0 ∨ v = 1)
            hg.2.2.1 i j hi hj
          have h0 : cell m i j = 0 := by
            rcases hbin with h | h
            · exact h
            · exact absurd h h1
          have hn1 : (i, j) ∉ upper_edges m := fun hc => h1 (hmem1.mp hc).2.2
          rw [if_neg hn1, h0]
          norm_num
      · subst heq
        have hdiag := hg.2.1 i hi
        have n1 : (i, i) ∉ upper_edges m := fun hc => by
          have := (hmem1.mp hc).1
          omega
        rw [if_neg n1, hdiag]
        norm_num
      · have n1 : (i, j) ∉ upper_edges m := fun hc => by
          have := (hmem1.mp hc).1
          omega
        rw [if_neg n1]
        by_cases h1 : cell m j i = 1
        · rw [if_pos (hmem2.mpr ⟨hgt, hi, h1⟩), hsymm, h1]
          norm_num
        · have hbin := cell_entry m.length m.length m hsh (fun v => v = 0 ∨ v = 1)
            hg.2.2.1 j i hj hi
          have h0 : cell m j i = 0 := by
            rcases hbin with h | h
            · exact h
            · exact absurd h h1
          have hn2 : (j, i) ∉ upper_edges m := fun hc => h1 (hmem2.mp hc).2.2
          rw [if_neg hn2, hsymm, h0]
          norm_num
    unfold from_incidence_matrix
    rw [hbuild, hrebuilt]
    show validate m = _
    exact validate_good m hg

/-- C2: for every Graph holding a valid matrix, each accessor followed by its
matching constructor reproduces exactly the same neighbourhood matrix (and
the incidence path succeeds). -/
theorem c2_round_trips (m : Mat) (hg : GoodMat m) :
    from_neighbourhood_matrix (as_neighbourhood_matrix m) = .ok m ∧
    from_adjacency_list (as_adjacency_list m) = .ok m ∧
    from_incidence_matrix (as_incidence_matrix m) = .ok m :=
  ⟨validate_good m hg, adjacency_round_trip m hg, incidence_round_trip m hg⟩

/-- Witness for `c2_round_trips` at the path graph 2-1-3. -/
theorem c2_round_trips_witness :
    from_neighbourhood_matrix (as_neighbourhood_matrix [[0,1,1],[1,0,0],[1,0,0]]) =
      .ok [[0,1,1],[1,0,0],[1,0,0]] ∧
    from_adjacency_list (as_adjacency_list [[0,1,1],[1,0,0],[1,0,0]]) =
      .ok [[0,1,1],[1,0,0],[1,0,0]] ∧
    from_incidence_matrix (as_incidence_matrix [[0,1,1],[1,0,0],[1,0,0]]) =
      .ok [[0,1,1],[1,0,0],[1,0,0]] :=
  c2_round_trips [[0,1,1],[1,0,0],[1,0,0]] (by decide)
